import Mathlib

/-!
# NoviBell audio streaming page

A shallow embedding of the client-side script carried by `src/MyWebPage.h`
(the page served by the device), and proofs about it.

* Script variables, the touched parts of the document and the effects on the
  browser (sockets built, text sent, timers armed, audio blocks started) are
  fields of one `State` record; every handler is a function `State → State`.
* Sample values are `Int`; an inbound `ArrayBuffer` is a list of bytes that
  `int16Array` decodes the way `new Int16Array(evt.data)` does.
* JavaScript numbers are binary64. Finite values are embedded in `ℚ` and every
  arithmetic operation of the script that is not on integers is followed by the
  rounding `fl64` (round to nearest, ties to even). Stores into a
  `Float32Array` round with `fround`. All magnitudes in this script stay far
  below the overflow threshold, so infinities and NaN never arise.
-/

namespace NoviBell

/-! ## Floating point -/

/-- Exponent of the unit in the last place of the binade holding `q`, for a
format with `prec` significand bits whose smallest subnormal is `2 ^ emin`. -/
def quantumExp (prec : ℕ) (emin : ℤ) (q : ℚ) : ℤ :=
  max (Int.log 2 |q| - ((prec : ℤ) - 1)) emin

/-- Nearest integer, ties to the even one. -/
def roundHalfEven (t : ℚ) : ℤ :=
  if t - ⌊t⌋ < 1 / 2 then ⌊t⌋
  else if 1 / 2 < t - ⌊t⌋ then ⌊t⌋ + 1
  else if ⌊t⌋ % 2 = 0 then ⌊t⌋ else ⌊t⌋ + 1

/-- Round to nearest (ties to even) in the format given by `prec` and `emin`. -/
def roundFloat (prec : ℕ) (emin : ℤ) (q : ℚ) : ℚ :=
  (roundHalfEven (q / (2 : ℚ) ^ quantumExp prec emin q) : ℚ) * (2 : ℚ) ^ quantumExp prec emin q

/-- Rounding of binary64, the format of every JavaScript number. -/
def fl64 (q : ℚ) : ℚ := roundFloat 53 (-1074) q

/-- Rounding of binary32, applied by a store into a `Float32Array`. -/
def fround (q : ℚ) : ℚ := roundFloat 24 (-149) q

/-- JavaScript `a / b` on finite numbers with `b` nonzero. -/
def fdiv (a b : ℚ) : ℚ := fl64 (a / b)

/-- JavaScript `a * b` on finite numbers. -/
def fmul (a b : ℚ) : ℚ := fl64 (a * b)

/-- JavaScript `a - b` on finite numbers. -/
def fsub (a b : ℚ) : ℚ := fl64 (a - b)

/-! ## Constants of the script -/

/-- `const maxDataPoints` -/
def maxDataPoints : Nat := 200

/-- `const maxAudioBufferSize` -/
def maxAudioBufferSize : Nat := 65536

/-- `const maxReconnectAttempts` -/
def maxReconnectAttempts : Nat := 5

/-! ## Browser objects -/

/-- The `readyState` of a `WebSocket`. -/
inductive ReadyState where
  | CONNECTING
  | OPEN
  | CLOSING
  | CLOSED
  deriving DecidableEq, Repr

/-- The `state` of an `AudioContext`. -/
inductive ContextState where
  | suspended
  | running
  | closed
  deriving DecidableEq, Repr

structure AudioContext where
  sampleRate : Nat
  state : ContextState
  deriving DecidableEq, Repr

structure GainNode where
  gain : ℚ
  deriving DecidableEq, Repr

/-- What the canvas shows after a call of `drawWaveform`. -/
structure Picture where
  centerLine : Option ((ℚ × ℚ) × (ℚ × ℚ))
  strokeStyle : String
  path : List (ℚ × ℚ)
  deriving DecidableEq, Repr

/-- The canvas right after `clearRect`. -/
def Picture.blank : Picture := { centerLine := none, strokeStyle := "", path := [] }

/-- The `data` of a message event: an `ArrayBuffer` (its bytes) or a string. -/
inductive MessageData where
  | arrayBuffer (bytes : List Nat)
  | text (s : String)
  deriving DecidableEq, Repr

/-- Outcome of building the audio graph inside `initAudio`: the constructor
of the context either throws, in which case `audioContext` is not assigned, or
yields a context in some initial state. `createGain` and `connect` do not throw
on a context that was just built. -/
inductive AudioInit where
  | throws
  | created (state : ContextState)
  deriving DecidableEq, Repr

/-! ## State -/

structure State where
  /-- `let dataPoints` -/
  dataPoints : List Int
  /-- `let isPlaying` -/
  isPlaying : Bool
  /-- `let audioContext` -/
  audioContext : Option AudioContext
  /-- `let audioBuffer` -/
  audioBuffer : List ℚ
  /-- `let gainNode` -/
  gainNode : Option GainNode
  /-- `let reconnectAttempts` -/
  reconnectAttempts : Nat
  /-- `statusDiv.textContent` -/
  statusText : String
  /-- `statusDiv.className` -/
  statusClass : String
  /-- `playButton.disabled` -/
  playDisabled : Bool
  /-- `stopButton.disabled` -/
  stopDisabled : Bool
  /-- whether `audioIndicator` carries the class `audio-active` -/
  audioActive : Bool
  /-- `canvas.width` -/
  canvasWidth : Nat
  /-- `canvas.height` -/
  canvasHeight : Nat
  /-- content of the canvas -/
  picture : Picture
  /-- every socket built so far, oldest first, with its current `readyState`;
  the variable `websocket` refers to the last one -/
  sockets : List ReadyState
  /-- text frames handed to `websocket.send`, oldest first -/
  sent : List String
  /-- pending `setTimeout(connectWebSocket, 2000)` timers -/
  timers : Nat
  /-- audio blocks handed to `source.start()`, oldest first -/
  started : List (List ℚ)
  /-- pending `requestAnimationFrame(drawWaveform)` callbacks -/
  frameRequests : Nat
  /-- calls of `audioContext.resume()` -/
  resumeCalls : Nat
  deriving DecidableEq, Repr

/-- The variable `websocket`: `none` while undefined, otherwise the
`readyState` of the socket it refers to. -/
def State.websocket (s : State) : Option ReadyState := s.sockets.getLast?

/-- Guard `websocket && websocket.readyState === WebSocket.OPEN`. -/
def State.socketOpen (s : State) : Bool := s.websocket == some ReadyState.OPEN

/-- The page as parsed, before `window.onload` runs. -/
def State.pageLoad : State :=
  { dataPoints := []
    isPlaying := false
    audioContext := none
    audioBuffer := []
    gainNode := none
    reconnectAttempts := 0
    statusText := "Disconnected"
    statusClass := "status disconnected"
    playDisabled := true
    stopDisabled := true
    audioActive := false
    canvasWidth := 300
    canvasHeight := 150
    picture := Picture.blank
    sockets := []
    sent := []
    timers := 0
    started := []
    frameRequests := 0
    resumeCalls := 0 }

/-! ## Drawing -/

/-- `Math.min(...xs)` for a nonempty argument list. -/
def listMin : List Int → Int
  | [] => 0
  | x :: xs => xs.foldl min x

/-- `Math.max(...xs)` for a nonempty argument list. -/
def listMax : List Int → Int
  | [] => 0
  | x :: xs => xs.foldl max x

/-- The vertical scale of `drawWaveform`:
`Math.max(Math.abs(min), Math.abs(max), 1000)`. -/
def waveRange (dataPoints : List Int) : Int :=
  max (max |listMin dataPoints| |listMax dataPoints|) 1000

/-- `canvas.width / (maxDataPoints - 1)` -/
def stepSize (width : Nat) : ℚ := fdiv width ((maxDataPoints - 1 : Nat) : ℚ)

/-- The vertex for index `i` and sample `p`: `x = i * stepSize` and
`y = (canvas.height / 2) * (1 - dataPoints[i] / range)`. -/
def plotPoint (width height : Nat) (range : Int) (i : Nat) (p : Int) : ℚ × ℚ :=
  (fmul i (stepSize width), fmul (fdiv height 2) (fsub 1 (fdiv p range)))

/-- The vertices visited by the loop `for (let i = 0; i < dataPoints.length; i++)`
of `drawWaveform`. -/
def plotPoints (width height : Nat) (dataPoints : List Int) : List (ℚ × ℚ) :=
  (List.range dataPoints.length).map
    (fun i => plotPoint width height (waveRange dataPoints) i (dataPoints.getD i 0))

/-- `drawWaveform`: clear the canvas, and unless the buffer is empty draw the
center line and the polyline through `plotPoints`. -/
def drawWaveform (s : State) : State :=
  if s.dataPoints.length = 0 then { s with picture := Picture.blank }
  else
    { s with
      picture :=
        { centerLine :=
            some ((0, fdiv s.canvasHeight 2), ((s.canvasWidth : ℚ), fdiv s.canvasHeight 2))
          strokeStyle := if s.isPlaying then "#2ecc71" else "#3498db"
          path := plotPoints s.canvasWidth s.canvasHeight s.dataPoints } }

/-- The arguments are `canvas.offsetWidth` and `canvas.offsetHeight`. -/
def resizeCanvas (s : State) (offsetWidth offsetHeight : Nat) : State :=
  drawWaveform { s with canvasWidth := offsetWidth, canvasHeight := offsetHeight }

/-! ## Audio -/

/-- `initAudio`, with the outcome of building the audio graph as an argument.
The second component is the returned boolean. -/
def initAudio (s : State) (env : AudioInit) : State × Bool :=
  match env with
  | AudioInit.created st =>
      ({ s with audioContext := some { sampleRate := 44100, state := st }
                gainNode := some { gain := 3 } }, true)
  | AudioInit.throws =>
      ({ s with statusText := "Audio initialization failed. Please try a different browser." },
        false)

/-- `processAudio`: copy the playback buffer into the `Float32Array` channel of
a new block, start the block and clear the buffer. The Web Audio calls of the
`try` block are given a nonempty length and the sample rate of the context
itself, for which they do not throw. -/
def processAudio (s : State) : State :=
  if s.audioBuffer.length = 0 ∨ s.audioContext = none ∨ s.isPlaying = false then s
  else
    { s with started := s.started ++ [s.audioBuffer.map fround], audioBuffer := [] }

/-- The body of `startAudio` after its first guard. The guard ensures that a
context exists; the branch for `none` is never taken from `startAudio`. -/
def startPlayback (s : State) : State :=
  match s.audioContext with
  | none => s
  | some ctx =>
      let s1 := if ctx.state = ContextState.suspended then
        { s with resumeCalls := s.resumeCalls + 1 } else s
      let s2 := if s1.socketOpen then { s1 with sent := s1.sent ++ ["play"] } else s1
      { s2 with isPlaying := true, playDisabled := true, stopDisabled := false,
                audioBuffer := [], audioActive := true }

/-- `startAudio`: the guard `!audioContext && !initAudio()` calls `initAudio`
only when no context exists yet. -/
def startAudio (s : State) (env : AudioInit) : State :=
  match s.audioContext with
  | some _ => startPlayback s
  | none =>
      match initAudio s env with
      | (s1, true) => startPlayback s1
      | (s1, false) => s1

/-- `stopAudio` -/
def stopAudio (s : State) : State :=
  let s1 := if s.socketOpen then { s with sent := s.sent ++ ["stop"] } else s
  { s1 with isPlaying := false, playDisabled := false, stopDisabled := true,
            audioBuffer := [], audioActive := false }

/-! ## Connection -/

/-- `connectWebSocket`: give up at the retry limit, otherwise build a socket,
which starts in the state `CONNECTING`. -/
def connectWebSocket (s : State) : State :=
  if s.reconnectAttempts ≥ maxReconnectAttempts then
    { s with statusText := "Connection failed after multiple attempts. Please reload the page."
             statusClass := "status disconnected" }
  else
    { s with statusText := "Connecting..."
             statusClass := "status connecting"
             sockets := s.sockets ++ [ReadyState.CONNECTING] }

/-- `websocket.onopen` -/
def onopen (s : State) : State :=
  { s with statusText := "Connected", statusClass := "status connected",
           playDisabled := false, reconnectAttempts := 0 }

/-- `websocket.onclose` -/
def onclose (s : State) : State :=
  { s with statusText := "Disconnected - Reconnecting...", statusClass := "status disconnected",
           playDisabled := true, stopDisabled := true, isPlaying := false, audioActive := false,
           reconnectAttempts := s.reconnectAttempts + 1, timers := s.timers + 1 }

/-- `websocket.onerror`: logs to the console only. -/
def onerror (s : State) : State := s

/-! ## Inbound frames -/

/-- One element of an `Int16Array` from its two bytes, low byte first. -/
def toInt16 (lo hi : Nat) : Int :=
  if lo % 256 + 256 * (hi % 256) < 32768 then ((lo % 256 + 256 * (hi % 256) : Nat) : Int)
  else ((lo % 256 + 256 * (hi % 256) : Nat) : Int) - 65536

/-- `new Int16Array(buffer)`: `none` stands for the `RangeError` thrown when
the byte length is odd. -/
def int16Array : List Nat → Option (List Int)
  | [] => some []
  | [_] => none
  | lo :: hi :: rest => (int16Array rest).map (fun xs => toInt16 lo hi :: xs)

/-- `Math.max(1, Math.floor(samples.length / 200))` -/
def skipRate (length : Nat) : Nat := max 1 (length / 200)

/-- The loop `for (let i = 0; i < samples.length; i += skipRate) dataPoints.push(samples[i])`,
entered at index `i`. Every round moves `i` forward by `skipRate`; `fuel` bounds
the number of rounds. -/
def pushLoop (samples : List Int) (skipRate : Nat) : Nat → Nat → List Int → List Int
  | 0, _, dataPoints => dataPoints
  | fuel + 1, i, dataPoints =>
      if i < samples.length then
        pushLoop samples skipRate fuel (i + skipRate) (dataPoints ++ [samples.getD i 0])
      else dataPoints

/-- `if (dataPoints.length > maxDataPoints) dataPoints.splice(0, dataPoints.length - maxDataPoints)` -/
def limitDataPoints (dataPoints : List Int) : List Int :=
  if dataPoints.length > maxDataPoints then dataPoints.drop (dataPoints.length - maxDataPoints)
  else dataPoints

/-- Number of indices `0, s, 2s, ...` below `n`: the ceiling of `n / s`. This
is the description to which the loop `pushLoop` is compared. -/
def sampleCount (n s : Nat) : Nat := (n + s - 1) / s

/-- The samples of a frame at the indices `0, s, 2s, ...`, in order. This is
the description to which the loop `pushLoop` is compared. -/
def strided (samples : List Int) (s : Nat) : List Int :=
  (List.range (sampleCount samples.length s)).map (fun j => samples.getD (j * s) 0)

/-- The loop `for (let i = 0; i < samples.length; i++) audioBuffer.push(samples[i] / 32768.0)`. -/
def pushAudio (audioBuffer : List ℚ) (samples : List Int) : List ℚ :=
  samples.foldl (fun buf (x : Int) => buf ++ [fdiv (x : ℚ) 32768]) audioBuffer

/-- The branch of `handleWebSocketMessage` taken for an `Int16Array` with at
least one element. -/
def handleSamples (s : State) (samples : List Int) : State :=
  let pushed := pushLoop samples (skipRate samples.length) samples.length 0 s.dataPoints
  let s1 := { s with dataPoints := limitDataPoints pushed }
  let s2 :=
    if s1.isPlaying = true ∧ s1.audioContext ≠ none then
      let s3 := { s1 with audioBuffer := pushAudio s1.audioBuffer samples }
      if s3.audioBuffer.length ≥ maxAudioBufferSize then processAudio s3 else s3
    else s1
  { s2 with frameRequests := s2.frameRequests + 1 }

/-- `handleWebSocketMessage`: a `RangeError` of the conversion is caught by the
handler and leaves the state alone, as does a text message. -/
def handleWebSocketMessage (s : State) (data : MessageData) : State :=
  match data with
  | MessageData.arrayBuffer bytes =>
      match int16Array bytes with
      | none => s
      | some samples => if samples.length > 0 then handleSamples s samples else s
  | MessageData.text _ => s

/-! ## Events -/

/-- `window.onload = init`; the arguments are the layout size of the canvas. -/
def init (s : State) (offsetWidth offsetHeight : Nat) : State :=
  connectWebSocket (resizeCanvas s offsetWidth offsetHeight)

/-- What the browser can deliver to the page once it is loaded. -/
inductive Event where
  /-- socket `i` finished its handshake -/
  | socketOpen (i : Nat)
  /-- socket `i` started its closing handshake -/
  | socketClosing (i : Nat)
  /-- socket `i` is closed -/
  | socketClose (i : Nat)
  | socketError (i : Nat)
  | socketMessage (i : Nat) (data : MessageData)
  /-- a reconnect timer fires -/
  | timeout
  | playClick (env : AudioInit)
  | stopClick
  | resize (offsetWidth offsetHeight : Nat)
  | animationFrame
  /-- the audio context changes state by itself -/
  | contextState (st : ContextState)
  deriving DecidableEq, Repr

/-- Whether the browser can deliver the event in this state. -/
def enabled (s : State) : Event → Bool
  | Event.socketOpen i => s.sockets.get? i == some ReadyState.CONNECTING
  | Event.socketClosing i => s.sockets.get? i == some ReadyState.OPEN
  | Event.socketClose i =>
      s.sockets.get? i == some ReadyState.CONNECTING || s.sockets.get? i == some ReadyState.OPEN
        || s.sockets.get? i == some ReadyState.CLOSING
  | Event.socketError i => i < s.sockets.length
  | Event.socketMessage i _ => s.sockets.get? i == some ReadyState.OPEN
  | Event.timeout => 0 < s.timers
  | Event.playClick _ => !s.playDisabled
  | Event.stopClick => !s.stopDisabled
  | Event.resize _ _ => true
  | Event.animationFrame => 0 < s.frameRequests
  | Event.contextState _ => s.audioContext.isSome

/-- The effect of an event: the change the browser makes itself, then the
handler the script registered for it. -/
def handle (s : State) : Event → State
  | Event.socketOpen i => onopen { s with sockets := s.sockets.set i ReadyState.OPEN }
  | Event.socketClosing i => { s with sockets := s.sockets.set i ReadyState.CLOSING }
  | Event.socketClose i => onclose { s with sockets := s.sockets.set i ReadyState.CLOSED }
  | Event.socketError _ => onerror s
  | Event.socketMessage _ data => handleWebSocketMessage s data
  | Event.timeout => connectWebSocket { s with timers := s.timers - 1 }
  | Event.playClick env => startAudio s env
  | Event.stopClick => stopAudio s
  | Event.resize w h => resizeCanvas s w h
  | Event.animationFrame => drawWaveform { s with frameRequests := s.frameRequests - 1 }
  | Event.contextState st =>
      { s with audioContext := s.audioContext.map (fun ctx => { ctx with state := st }) }

/-- Deliver a list of events in order; `none` when one of them cannot occur. -/
def run (s : State) : List Event → Option State
  | [] => some s
  | e :: es => if enabled s e then run (handle s e) es else none

/-- Events outside the life cycle of the connection: frames, socket errors,
clicks, resizes, redraws and audio state changes. -/
def Event.isLocal : Event → Bool
  | Event.socketOpen _ => false
  | Event.socketClosing _ => false
  | Event.socketClose _ => false
  | Event.timeout => false
  | _ => true

/-- Whether the event is a socket finishing its handshake. -/
def Event.isOpen : Event → Bool
  | Event.socketOpen _ => true
  | _ => false

/-- States the page can be in: some layout size at load, then some events. -/
def Reachable (s : State) : Prop :=
  ∃ w h es, run (init State.pageLoad w h) es = some s

/-! ## Predicates and sample states used by the theorems -/

/-- A frame of 200 samples of silence. -/
def silentBytes : List Nat := List.replicate (2 * 200) 0

/-- The page in a wide window, where the style sheet lays the canvas out 802
pixels wide and 202 high (800 by 200 of content plus the border), after the
first socket opened and delivered 200 samples of silence. -/
def wideCanvas : State :=
  handle (handle (init State.pageLoad 802 202) (Event.socketOpen 0))
    (Event.socketMessage 0 (MessageData.arrayBuffer silentBytes))

/-- A buffer of three points on the default canvas. -/
def threePoints : State := { State.pageLoad with dataPoints := [1000, -1000, 0] }

/-- The bytes of a frame of three samples, `1000, -1000, 0`, low byte first. -/
def threeSampleBytes : List Nat := [0xE8, 0x03, 0x18, 0xFC, 0x00, 0x00]

/-- A frame of three samples, `1000, -1000, 0`. -/
def threeSamples : MessageData := MessageData.arrayBuffer threeSampleBytes

/-- A value pushed by the frame handler: a signed 16-bit sample over 32768. -/
def IsNormalized (v : ℚ) : Prop := ∃ x : Int, (-32768 ≤ x ∧ x ≤ 32767) ∧ v = (x : ℚ) / 32768

/-- What every state of the page satisfies: playback is only ever on with an
audio context, and the playback buffer holds normalized samples only. -/
def Inv (s : State) : Prop :=
  (s.isPlaying = true → s.audioContext ≠ none) ∧ ∀ v ∈ s.audioBuffer, IsNormalized v

/-- The page after the first socket opened and play was clicked. -/
def playingPage : State :=
  handle (handle (init State.pageLoad 300 150) (Event.socketOpen 0))
    (Event.playClick (AudioInit.created ContextState.running))

/-- A state with five closed sockets and the retry counter at 5, as
`connectWebSocket` finds it when the fifth retry timer fires. -/
def fiveFailures : State :=
  { State.pageLoad with reconnectAttempts := 5
                        sockets := List.replicate 5 ReadyState.CLOSED }

/-- The shape of every state of a run in which no socket ever opens: the
buttons are disabled, and either the last socket is still connecting, or all
sockets are closed and one retry timer is pending, or the page gave up. -/
def ClosedRun (t : State) : Prop :=
  t.playDisabled = true ∧ t.stopDisabled = true ∧ ∃ n : Nat,
    (t.sockets = List.replicate n ReadyState.CLOSED ++ [ReadyState.CONNECTING]
        ∧ t.timers = 0 ∧ t.reconnectAttempts = n ∧ n < 5)
      ∨ (t.sockets = List.replicate n ReadyState.CLOSED
        ∧ t.timers = 1 ∧ t.reconnectAttempts = n ∧ n ≤ 5)
      ∨ (t.sockets = List.replicate 5 ReadyState.CLOSED
        ∧ t.timers = 0 ∧ t.reconnectAttempts = 5
        ∧ t.statusText = "Connection failed after multiple attempts. Please reload the page."
        ∧ t.statusClass = "status disconnected")

/-- The fields written by the connection life cycle agree in two states. -/
def SameConnection (s t : State) : Prop :=
  t.sockets = s.sockets ∧ t.timers = s.timers ∧ t.reconnectAttempts = s.reconnectAttempts
    ∧ t.playDisabled = s.playDisabled ∧ t.stopDisabled = s.stopDisabled
    ∧ t.statusText = s.statusText ∧ t.statusClass = s.statusClass

/-- Five connections that close without opening, each followed by its retry
timer. -/
def fiveCloses : List Event :=
  [Event.socketClose 0, Event.timeout, Event.socketClose 1, Event.timeout,
    Event.socketClose 2, Event.timeout, Event.socketClose 3, Event.timeout,
    Event.socketClose 4, Event.timeout]

/-- The state the run `fiveCloses` ends in. -/
def gaveUp : State := fiveCloses.foldl handle (init State.pageLoad 300 150)

/-- At most one thing is pending in the connection life cycle: every socket
but possibly the last is closed, and a retry timer is armed only while all
sockets are closed. -/
def OnePending (t : State) : Prop :=
  ∃ n : Nat,
    (∃ r, r ≠ ReadyState.CLOSED ∧ t.sockets = List.replicate n ReadyState.CLOSED ++ [r]
        ∧ t.timers = 0)
      ∨ (t.sockets = List.replicate n ReadyState.CLOSED ∧ t.timers ≤ 1)

/-- Nothing is pending: every socket is closed and no timer is armed. -/
def Quiet (t : State) : Prop :=
  (∀ r ∈ t.sockets, r = ReadyState.CLOSED) ∧ t.timers = 0

/-! ## Rounding lemmas -/

theorem roundHalfEven_intCast (n : ℤ) : roundHalfEven (n : ℚ) = n := by
  unfold roundHalfEven
  simp

theorem roundHalfEven_le_of_le {t : ℚ} {n : ℤ} (h : t ≤ n) : roundHalfEven t ≤ n := by
  have h1 : (⌊t⌋ : ℚ) ≤ t := Int.floor_le t
  have h2 : ⌊t⌋ ≤ n := by exact_mod_cast h1.trans h
  have h3 : ¬ (t - ⌊t⌋ < 1 / 2) → ⌊t⌋ + 1 ≤ n := by
    intro hn
    have : (⌊t⌋ : ℚ) < n := by linarith
    have : ⌊t⌋ < n := by exact_mod_cast this
    omega
  unfold roundHalfEven
  split_ifs with c1 c2 c3
  · exact h2
  · exact h3 c1
  · exact h2
  · exact h3 c1

theorem le_roundHalfEven_of_le {t : ℚ} {n : ℤ} (h : (n : ℚ) ≤ t) : n ≤ roundHalfEven t := by
  have h1 : n ≤ ⌊t⌋ := Int.le_floor.2 h
  unfold roundHalfEven
  split_ifs <;> omega

theorem roundHalfEven_le_add_half (t : ℚ) : (roundHalfEven t : ℚ) ≤ t + 1 / 2 := by
  have h1 : (⌊t⌋ : ℚ) ≤ t := Int.floor_le t
  unfold roundHalfEven
  split_ifs with c1 c2 c3
  · linarith
  · push_cast; linarith
  · linarith
  · push_cast; linarith

theorem two_zpow_pos (k : ℤ) : (0 : ℚ) < (2 : ℚ) ^ k := zpow_pos (by norm_num) k

/-- A nonzero number bounded by a value of the format has a quantum no coarser
than the exponent of that value. -/
theorem quantumExp_le {prec : ℕ} {emin : ℤ} {q : ℚ} {m j : ℤ} (hq : q ≠ 0)
    (hm : |m| < 2 ^ prec) (hj : emin ≤ j) (h : |q| ≤ (|m| : ℤ) * (2 : ℚ) ^ j) :
    quantumExp prec emin q ≤ j := by
  have hm2 : ((|m| : ℤ) : ℚ) < (2 : ℚ) ^ (prec : ℤ) := by
    have : ((|m| : ℤ) : ℚ) < ((2 ^ prec : ℤ) : ℚ) := by exact_mod_cast hm
    simpa using this
  have hlt : |q| < ((2 : ℕ) : ℚ) ^ (j + prec) := by
    have h2 : (2 : ℚ) ^ (j + prec) = (2 : ℚ) ^ (prec : ℤ) * (2 : ℚ) ^ j := by
      rw [add_comm, zpow_add₀ (by norm_num)]
    have h3 : ((|m| : ℤ) : ℚ) * (2 : ℚ) ^ j < (2 : ℚ) ^ (prec : ℤ) * (2 : ℚ) ^ j :=
      mul_lt_mul_of_pos_right hm2 (two_zpow_pos j)
    simp only [Nat.cast_ofNat]
    rw [h2]
    exact lt_of_le_of_lt h h3
  have hlog : Int.log 2 |q| < j + prec :=
    (Int.lt_zpow_iff_log_lt (by norm_num) (abs_pos.2 hq)).1 hlt
  unfold quantumExp
  apply max_le
  · omega
  · exact hj

theorem roundFloat_zero (prec : ℕ) (emin : ℤ) : roundFloat prec emin 0 = 0 := by
  unfold roundFloat
  have : roundHalfEven (0 : ℚ) = 0 := by simpa using roundHalfEven_intCast 0
  simp [this]

/-- An integer multiple of a power of two is an integer multiple of every finer one. -/
theorem dyadic_div (m j k : ℤ) (hk : k ≤ j) :
    (m : ℚ) * (2 : ℚ) ^ j / (2 : ℚ) ^ k = ((m * 2 ^ (j - k).toNat : ℤ) : ℚ) := by
  have h1 : (2 : ℚ) ^ j = (2 : ℚ) ^ ((j - k).toNat : ℤ) * (2 : ℚ) ^ k := by
    rw [← zpow_add₀ (by norm_num)]
    congr 1
    omega
  have hp := two_zpow_pos k
  rw [h1, ← mul_assoc, mul_div_assoc, div_self (ne_of_gt hp), mul_one]
  push_cast
  rw [zpow_natCast]

theorem abs_dyadic (m j : ℤ) : |(m : ℚ) * (2 : ℚ) ^ j| = ((|m| : ℤ) : ℚ) * (2 : ℚ) ^ j := by
  rw [abs_mul, abs_of_pos (two_zpow_pos j)]
  push_cast
  rfl

/-- Values of the format are fixed by rounding. -/
theorem roundFloat_dyadic {prec : ℕ} {emin : ℤ} (m j : ℤ) (hm : |m| < 2 ^ prec)
    (hj : emin ≤ j) : roundFloat prec emin ((m : ℚ) * (2 : ℚ) ^ j) = (m : ℚ) * (2 : ℚ) ^ j := by
  by_cases hm0 : m = 0
  · subst hm0
    simp [roundFloat_zero]
  · have hq : (m : ℚ) * (2 : ℚ) ^ j ≠ 0 :=
      mul_ne_zero (by exact_mod_cast hm0) (ne_of_gt (two_zpow_pos j))
    have hk : quantumExp prec emin ((m : ℚ) * (2 : ℚ) ^ j) ≤ j :=
      quantumExp_le hq hm hj (le_of_eq (abs_dyadic m j))
    unfold roundFloat
    rw [dyadic_div m j _ hk, roundHalfEven_intCast, ← dyadic_div m j _ hk,
      div_mul_cancel₀ _ (ne_of_gt (two_zpow_pos _))]

/-- Rounding never crosses a nonnegative value of the format from below. -/
theorem roundFloat_le {prec : ℕ} {emin : ℤ} {q : ℚ} (m j : ℤ) (hm0 : 0 ≤ m)
    (hm : |m| < 2 ^ prec) (hj : emin ≤ j) (h : q ≤ (m : ℚ) * (2 : ℚ) ^ j) :
    roundFloat prec emin q ≤ (m : ℚ) * (2 : ℚ) ^ j := by
  have hb : (0 : ℚ) ≤ (m : ℚ) * (2 : ℚ) ^ j :=
    mul_nonneg (by exact_mod_cast hm0) (le_of_lt (two_zpow_pos j))
  by_cases hq : q ≤ 0
  · have h1 : q / (2 : ℚ) ^ quantumExp prec emin q ≤ ((0 : ℤ) : ℚ) := by
      simpa using div_nonpos_of_nonpos_of_nonneg hq (le_of_lt (two_zpow_pos _))
    have h2 : (roundHalfEven (q / (2 : ℚ) ^ quantumExp prec emin q) : ℚ) ≤ 0 := by
      exact_mod_cast roundHalfEven_le_of_le h1
    have h3 : roundFloat prec emin q ≤ 0 := by
      unfold roundFloat
      exact mul_nonpos_of_nonpos_of_nonneg h2 (le_of_lt (two_zpow_pos _))
    linarith
  · have hq0 : 0 < q := not_le.1 hq
    have habs : |q| ≤ ((|m| : ℤ) : ℚ) * (2 : ℚ) ^ j := by
      rw [abs_of_pos hq0, ← abs_dyadic, abs_of_nonneg hb]
      exact h
    have hk : quantumExp prec emin q ≤ j := quantumExp_le (ne_of_gt hq0) hm hj habs
    have h1 : q / (2 : ℚ) ^ quantumExp prec emin q
        ≤ ((m * 2 ^ (j - quantumExp prec emin q).toNat : ℤ) : ℚ) := by
      rw [← dyadic_div m j _ hk]
      exact div_le_div_of_nonneg_right h (le_of_lt (two_zpow_pos _))
    have h2 : (roundHalfEven (q / (2 : ℚ) ^ quantumExp prec emin q) : ℚ)
        ≤ ((m * 2 ^ (j - quantumExp prec emin q).toNat : ℤ) : ℚ) := by
      exact_mod_cast roundHalfEven_le_of_le h1
    unfold roundFloat
    calc (roundHalfEven (q / (2 : ℚ) ^ quantumExp prec emin q) : ℚ)
          * (2 : ℚ) ^ quantumExp prec emin q
        ≤ ((m * 2 ^ (j - quantumExp prec emin q).toNat : ℤ) : ℚ)
          * (2 : ℚ) ^ quantumExp prec emin q :=
          mul_le_mul_of_nonneg_right h2 (le_of_lt (two_zpow_pos _))
      _ = (m : ℚ) * (2 : ℚ) ^ j := by
          rw [← dyadic_div m j _ hk, div_mul_cancel₀ _ (ne_of_gt (two_zpow_pos _))]

/-- Rounding never crosses a nonpositive value of the format from above. -/
theorem le_roundFloat {prec : ℕ} {emin : ℤ} {q : ℚ} (m j : ℤ) (hm0 : m ≤ 0)
    (hm : |m| < 2 ^ prec) (hj : emin ≤ j) (h : (m : ℚ) * (2 : ℚ) ^ j ≤ q) :
    (m : ℚ) * (2 : ℚ) ^ j ≤ roundFloat prec emin q := by
  have hb : (m : ℚ) * (2 : ℚ) ^ j ≤ 0 :=
    mul_nonpos_of_nonpos_of_nonneg (by exact_mod_cast hm0) (le_of_lt (two_zpow_pos j))
  by_cases hq : 0 ≤ q
  · have h1 : ((0 : ℤ) : ℚ) ≤ q / (2 : ℚ) ^ quantumExp prec emin q := by
      simpa using div_nonneg hq (le_of_lt (two_zpow_pos _))
    have h2 : (0 : ℚ) ≤ (roundHalfEven (q / (2 : ℚ) ^ quantumExp prec emin q) : ℚ) := by
      exact_mod_cast le_roundHalfEven_of_le h1
    have h3 : 0 ≤ roundFloat prec emin q := by
      unfold roundFloat
      exact mul_nonneg h2 (le_of_lt (two_zpow_pos _))
    linarith
  · have hq0 : q < 0 := not_le.1 hq
    have habs : |q| ≤ ((|m| : ℤ) : ℚ) * (2 : ℚ) ^ j := by
      rw [abs_of_neg hq0, ← abs_dyadic, abs_of_nonpos hb]
      linarith
    have hk : quantumExp prec emin q ≤ j := quantumExp_le (ne_of_lt hq0) hm hj habs
    have h1 : ((m * 2 ^ (j - quantumExp prec emin q).toNat : ℤ) : ℚ)
        ≤ q / (2 : ℚ) ^ quantumExp prec emin q := by
      rw [← dyadic_div m j _ hk]
      exact div_le_div_of_nonneg_right h (le_of_lt (two_zpow_pos _))
    have h2 : ((m * 2 ^ (j - quantumExp prec emin q).toNat : ℤ) : ℚ)
        ≤ (roundHalfEven (q / (2 : ℚ) ^ quantumExp prec emin q) : ℚ) := by
      exact_mod_cast le_roundHalfEven_of_le h1
    unfold roundFloat
    calc (m : ℚ) * (2 : ℚ) ^ j
        = ((m * 2 ^ (j - quantumExp prec emin q).toNat : ℤ) : ℚ)
          * (2 : ℚ) ^ quantumExp prec emin q := by
          rw [← dyadic_div m j _ hk, div_mul_cancel₀ _ (ne_of_gt (two_zpow_pos _))]
      _ ≤ (roundHalfEven (q / (2 : ℚ) ^ quantumExp prec emin q) : ℚ)
          * (2 : ℚ) ^ quantumExp prec emin q :=
          mul_le_mul_of_nonneg_right h2 (le_of_lt (two_zpow_pos _))

/-- Relative error of rounding a positive number in the normal range. -/
theorem roundFloat_le_mul {prec : ℕ} {emin : ℤ} {q : ℚ} (hq : 0 < q)
    (hn : (2 : ℚ) ^ (emin + prec - 1) ≤ q) :
    roundFloat prec emin q ≤ q * (1 + (2 : ℚ) ^ (-(prec : ℤ))) := by
  have hlog : emin + prec - 1 ≤ Int.log 2 q := by
    apply (Int.zpow_le_iff_le_log (by norm_num) hq).1
    simpa using hn
  have hk : quantumExp prec emin q = Int.log 2 q - ((prec : ℤ) - 1) := by
    unfold quantumExp
    rw [abs_of_pos hq]
    apply max_eq_left
    omega
  have hpow : (2 : ℚ) ^ (Int.log 2 q) ≤ q := by
    simpa using Int.zpow_log_le_self (b := 2) (by norm_num) hq
  have hsplit : (2 : ℚ) ^ (Int.log 2 q - ((prec : ℤ) - 1))
      = (2 : ℚ) ^ (Int.log 2 q) * ((2 : ℚ) ^ (-(prec : ℤ)) * 2) := by
    have : Int.log 2 q - ((prec : ℤ) - 1) = Int.log 2 q + (-(prec : ℤ) + 1) := by ring
    rw [this, zpow_add₀ (by norm_num), zpow_add₀ (by norm_num), zpow_one]
  have hpp := two_zpow_pos (-(prec : ℤ))
  have hkp := two_zpow_pos (Int.log 2 q - ((prec : ℤ) - 1))
  have hr := roundHalfEven_le_add_half (q / (2 : ℚ) ^ (Int.log 2 q - ((prec : ℤ) - 1)))
  unfold roundFloat
  rw [hk]
  calc (roundHalfEven (q / (2 : ℚ) ^ (Int.log 2 q - ((prec : ℤ) - 1))) : ℚ)
        * (2 : ℚ) ^ (Int.log 2 q - ((prec : ℤ) - 1))
      ≤ (q / (2 : ℚ) ^ (Int.log 2 q - ((prec : ℤ) - 1)) + 1 / 2)
        * (2 : ℚ) ^ (Int.log 2 q - ((prec : ℤ) - 1)) :=
        mul_le_mul_of_nonneg_right hr (le_of_lt hkp)
    _ = q + (2 : ℚ) ^ (Int.log 2 q) * (2 : ℚ) ^ (-(prec : ℤ)) := by
        rw [add_mul, div_mul_cancel₀ _ (ne_of_gt hkp), hsplit]
        ring
    _ ≤ q + q * (2 : ℚ) ^ (-(prec : ℤ)) := by
        have := mul_le_mul_of_nonneg_right hpow (le_of_lt hpp)
        linarith
    _ = q * (1 + (2 : ℚ) ^ (-(prec : ℤ))) := by ring

theorem sub_half_le_roundHalfEven (t : ℚ) : t - 1 / 2 ≤ (roundHalfEven t : ℚ) := by
  have h1 : t < (⌊t⌋ : ℚ) + 1 := Int.lt_floor_add_one t
  unfold roundHalfEven
  split_ifs with c1 c2 c3
  · linarith
  · push_cast; linarith
  · linarith
  · push_cast; linarith

/-- Away from ties the nearest integer is the only one within one half. -/
theorem roundHalfEven_eq_of_abs_lt {t : ℚ} {n : ℤ} (h : |t - n| < 1 / 2) :
    roundHalfEven t = n := by
  have h1 := abs_lt.1 h
  have hlo : n - 1 ≤ ⌊t⌋ := Int.le_floor.2 (by push_cast; linarith [h1.1])
  have hhi : ⌊t⌋ ≤ n := by
    have : (⌊t⌋ : ℚ) < (n : ℚ) + 1 := by linarith [Int.floor_le t, h1.2]
    have : ⌊t⌋ < n + 1 := by exact_mod_cast this
    omega
  have hcase : ⌊t⌋ = n ∨ ⌊t⌋ = n - 1 := by omega
  unfold roundHalfEven
  rcases hcase with hc | hc
  · rw [hc]
    rw [if_pos (by linarith [h1.2])]
  · rw [hc]
    have hnot : ¬ (t - ((n - 1 : ℤ) : ℚ) < 1 / 2) := by
      push_cast
      linarith [h1.1]
    have hgt : 1 / 2 < t - ((n - 1 : ℤ) : ℚ) := by
      push_cast
      linarith [h1.1]
    rw [if_neg hnot, if_pos hgt]
    omega

/-- Relative error of rounding a positive number in the normal range, from below. -/
theorem mul_le_roundFloat {prec : ℕ} {emin : ℤ} {q : ℚ} (hq : 0 < q)
    (hn : (2 : ℚ) ^ (emin + prec - 1) ≤ q) :
    q * (1 - (2 : ℚ) ^ (-(prec : ℤ))) ≤ roundFloat prec emin q := by
  have hlog : emin + prec - 1 ≤ Int.log 2 q := by
    apply (Int.zpow_le_iff_le_log (by norm_num) hq).1
    simpa using hn
  have hk : quantumExp prec emin q = Int.log 2 q - ((prec : ℤ) - 1) := by
    unfold quantumExp
    rw [abs_of_pos hq]
    apply max_eq_left
    omega
  have hpow : (2 : ℚ) ^ (Int.log 2 q) ≤ q := by
    simpa using Int.zpow_log_le_self (b := 2) (by norm_num) hq
  have hsplit : (2 : ℚ) ^ (Int.log 2 q - ((prec : ℤ) - 1))
      = (2 : ℚ) ^ (Int.log 2 q) * ((2 : ℚ) ^ (-(prec : ℤ)) * 2) := by
    have : Int.log 2 q - ((prec : ℤ) - 1) = Int.log 2 q + (-(prec : ℤ) + 1) := by ring
    rw [this, zpow_add₀ (by norm_num), zpow_add₀ (by norm_num), zpow_one]
  have hpp := two_zpow_pos (-(prec : ℤ))
  have hkp := two_zpow_pos (Int.log 2 q - ((prec : ℤ) - 1))
  have hr := sub_half_le_roundHalfEven (q / (2 : ℚ) ^ (Int.log 2 q - ((prec : ℤ) - 1)))
  unfold roundFloat
  rw [hk]
  calc q * (1 - (2 : ℚ) ^ (-(prec : ℤ)))
      = q - q * (2 : ℚ) ^ (-(prec : ℤ)) := by ring
    _ ≤ q - (2 : ℚ) ^ (Int.log 2 q) * (2 : ℚ) ^ (-(prec : ℤ)) := by
        have := mul_le_mul_of_nonneg_right hpow (le_of_lt hpp)
        linarith
    _ = (q / (2 : ℚ) ^ (Int.log 2 q - ((prec : ℤ) - 1)) - 1 / 2)
        * (2 : ℚ) ^ (Int.log 2 q - ((prec : ℤ) - 1)) := by
        rw [sub_mul, div_mul_cancel₀ _ (ne_of_gt hkp), hsplit]
        ring
    _ ≤ (roundHalfEven (q / (2 : ℚ) ^ (Int.log 2 q - ((prec : ℤ) - 1))) : ℚ)
        * (2 : ℚ) ^ (Int.log 2 q - ((prec : ℤ) - 1)) :=
        mul_le_mul_of_nonneg_right hr (le_of_lt hkp)

/-- Evaluation of a rounding once the binade and the nearest multiple of the
quantum are known. -/
theorem roundFloat_eq_of {prec : ℕ} {emin : ℤ} {q : ℚ} (e n : ℤ) (hq : 0 < q)
    (he1 : (2 : ℚ) ^ e ≤ q) (he2 : q < (2 : ℚ) ^ (e + 1)) (hk : emin ≤ e - ((prec : ℤ) - 1))
    (hn : |q / (2 : ℚ) ^ (e - ((prec : ℤ) - 1)) - n| < 1 / 2) :
    roundFloat prec emin q = (n : ℚ) * (2 : ℚ) ^ (e - ((prec : ℤ) - 1)) := by
  have hlog : Int.log 2 q = e := by
    apply le_antisymm
    · have : Int.log 2 q < e + 1 :=
        (Int.lt_zpow_iff_log_lt (by norm_num) hq).1 (by simpa using he2)
      omega
    · exact (Int.zpow_le_iff_le_log (by norm_num) hq).1 (by simpa using he1)
  have hqe : quantumExp prec emin q = e - ((prec : ℤ) - 1) := by
    unfold quantumExp
    rw [abs_of_pos hq, hlog]
    exact max_eq_left hk
  unfold roundFloat
  rw [hqe, roundHalfEven_eq_of_abs_lt hn]

/-! ### binary64 and binary32 -/

theorem fl64_natCast (n : ℕ) (h : n < 2 ^ 53) : fl64 (n : ℚ) = n := by
  have := @roundFloat_dyadic 53 (-1074) (n : ℤ) 0
    (by rw [abs_of_nonneg (by positivity)]; exact_mod_cast h) (by norm_num)
  simpa [fl64] using this

theorem fl64_le_natCast {q : ℚ} (n : ℕ) (h : n < 2 ^ 53) (hq : q ≤ n) : fl64 q ≤ n := by
  have := @roundFloat_le 53 (-1074) q (n : ℤ) 0 (by positivity)
    (by rw [abs_of_nonneg (by positivity)]; exact_mod_cast h) (by norm_num) (by simpa using hq)
  simpa [fl64] using this

theorem fl64_nonneg {q : ℚ} (hq : 0 ≤ q) : 0 ≤ fl64 q := by
  have := @le_roundFloat 53 (-1074) q 0 0 le_rfl (by norm_num)
    (by norm_num) (by simpa using hq)
  simpa [fl64] using this

theorem neg_one_le_fl64 {q : ℚ} (hq : -1 ≤ q) : -1 ≤ fl64 q := by
  have := @le_roundFloat 53 (-1074) q (-1) 0 (by norm_num) (by norm_num)
    (by norm_num) (by simpa using hq)
  simpa [fl64] using this

theorem fl64_le_mul {q : ℚ} (hq : (1 : ℚ) / 512 ≤ q) : fl64 q ≤ q * (1 + 1 / 2 ^ 53) := by
  have h0 : (0 : ℚ) < q := lt_of_lt_of_le (by norm_num) hq
  have hn : (2 : ℚ) ^ ((-1074 : ℤ) + (53 : ℕ) - 1) ≤ q := by
    refine le_trans ?_ hq
    have : (2 : ℚ) ^ ((-1074 : ℤ) + (53 : ℕ) - 1) ≤ (2 : ℚ) ^ (-9 : ℤ) :=
      zpow_le_zpow_right₀ (by norm_num) (by norm_num)
    refine le_trans this ?_
    norm_num [zpow_neg]
  have := @roundFloat_le_mul 53 (-1074) q h0 hn
  have h2 : (2 : ℚ) ^ (-((53 : ℕ) : ℤ)) = 1 / 2 ^ 53 := by
    rw [zpow_neg, one_div]
    norm_cast
  rw [h2] at this
  exact this

theorem mul_le_fl64 {q : ℚ} (hq : (1 : ℚ) / 512 ≤ q) : q * (1 - 1 / 2 ^ 53) ≤ fl64 q := by
  have h0 : (0 : ℚ) < q := lt_of_lt_of_le (by norm_num) hq
  have hn : (2 : ℚ) ^ ((-1074 : ℤ) + (53 : ℕ) - 1) ≤ q := by
    refine le_trans ?_ hq
    have : (2 : ℚ) ^ ((-1074 : ℤ) + (53 : ℕ) - 1) ≤ (2 : ℚ) ^ (-9 : ℤ) :=
      zpow_le_zpow_right₀ (by norm_num) (by norm_num)
    refine le_trans this ?_
    norm_num [zpow_neg]
  have := @mul_le_roundFloat 53 (-1074) q h0 hn
  have h2 : (2 : ℚ) ^ (-((53 : ℕ) : ℤ)) = 1 / 2 ^ 53 := by
    rw [zpow_neg, one_div]
    norm_cast
  rw [h2] at this
  exact this

theorem fl64_half_natCast (n : ℕ) (h : n < 2 ^ 53) : fl64 ((n : ℚ) / 2) = (n : ℚ) / 2 := by
  have := @roundFloat_dyadic 53 (-1074) (n : ℤ) (-1)
    (by rw [abs_of_nonneg (by positivity)]; exact_mod_cast h) (by norm_num)
  have h2 : ((n : ℤ) : ℚ) * (2 : ℚ) ^ (-1 : ℤ) = (n : ℚ) / 2 := by
    rw [zpow_neg, zpow_one]
    push_cast
    ring
  rw [h2] at this
  exact this

/-! ## The waveform -/

theorem foldl_min_le (xs : List Int) (x : Int) :
    xs.foldl min x ≤ x ∧ ∀ p ∈ xs, xs.foldl min x ≤ p := by
  induction xs generalizing x with
  | nil => simp
  | cons y ys ih =>
    simp only [List.foldl_cons, List.mem_cons]
    obtain ⟨h1, h2⟩ := ih (min x y)
    refine ⟨h1.trans (min_le_left _ _), ?_⟩
    rintro p (rfl | hp)
    · exact h1.trans (min_le_right _ _)
    · exact h2 p hp

theorem le_foldl_max (xs : List Int) (x : Int) :
    x ≤ xs.foldl max x ∧ ∀ p ∈ xs, p ≤ xs.foldl max x := by
  induction xs generalizing x with
  | nil => simp
  | cons y ys ih =>
    simp only [List.foldl_cons, List.mem_cons]
    obtain ⟨h1, h2⟩ := ih (max x y)
    refine ⟨(le_max_left _ _).trans h1, ?_⟩
    rintro p (rfl | hp)
    · exact (le_max_right _ _).trans h1
    · exact h2 p hp

theorem listMin_le {dataPoints : List Int} {p : Int} (hp : p ∈ dataPoints) :
    listMin dataPoints ≤ p := by
  cases dataPoints with
  | nil => simp at hp
  | cons x xs =>
    rcases List.mem_cons.1 hp with rfl | h
    · exact (foldl_min_le xs p).1
    · exact (foldl_min_le xs x).2 p h

theorem le_listMax {dataPoints : List Int} {p : Int} (hp : p ∈ dataPoints) :
    p ≤ listMax dataPoints := by
  cases dataPoints with
  | nil => simp at hp
  | cons x xs =>
    rcases List.mem_cons.1 hp with rfl | h
    · exact (le_foldl_max xs p).1
    · exact (le_foldl_max xs x).2 p h

theorem waveRange_ge (dataPoints : List Int) : 1000 ≤ waveRange dataPoints :=
  le_max_right _ _

theorem abs_le_waveRange {dataPoints : List Int} {p : Int} (hp : p ∈ dataPoints) :
    |p| ≤ waveRange dataPoints := by
  have h1 := listMin_le hp
  have h2 := le_listMax hp
  have h3 : |p| ≤ max |listMin dataPoints| |listMax dataPoints| := by
    rcases abs_cases p with ⟨e, _⟩ | ⟨e, _⟩
    · rw [e]
      exact le_max_of_le_right (h2.trans (le_abs_self _))
    · rw [e]
      exact le_max_of_le_left ((neg_le_neg h1).trans (neg_le_abs _))
  exact h3.trans (le_max_left _ _)

/-- The ordinate of a vertex lies on the canvas. -/
theorem plotPoint_snd_bounds (width height : ℕ) (range p : ℤ) (i : ℕ) (hh : height < 2 ^ 32)
    (hr : 1000 ≤ range) (hp : |p| ≤ range) :
    0 ≤ (plotPoint width height range i p).2 ∧ (plotPoint width height range i p).2 ≤ height := by
  have hrq : (0 : ℚ) < (range : ℚ) := by
    have : (0 : ℤ) < range := by omega
    exact_mod_cast this
  have hpq := abs_le.1 hp
  have hlo : (-1 : ℚ) ≤ (p : ℚ) / (range : ℚ) := by
    rw [le_div_iff₀ hrq]
    have : -range ≤ p := hpq.1
    have : ((-range : ℤ) : ℚ) ≤ (p : ℚ) := by exact_mod_cast this
    push_cast at this
    linarith
  have hhi : (p : ℚ) / (range : ℚ) ≤ ((1 : ℕ) : ℚ) := by
    rw [div_le_iff₀ hrq]
    have : (p : ℚ) ≤ (range : ℚ) := by exact_mod_cast hpq.2
    push_cast
    linarith
  have hd1 : -1 ≤ fdiv p range := neg_one_le_fl64 hlo
  have hd2 : fdiv p range ≤ 1 := by
    have := fl64_le_natCast 1 (by norm_num) hhi
    simpa [fdiv] using this
  have ht1 : 0 ≤ fsub 1 (fdiv p range) := fl64_nonneg (by linarith)
  have ht2 : fsub 1 (fdiv p range) ≤ 2 := by
    have := @fl64_le_natCast (1 - fdiv p range) 2 (by norm_num) (by push_cast; linarith)
    simpa [fsub] using this
  have hhalf : fdiv height 2 = (height : ℚ) / 2 :=
    fl64_half_natCast height (lt_of_lt_of_le hh (by norm_num))
  have hh0 : (0 : ℚ) ≤ (height : ℚ) := by positivity
  constructor
  · show 0 ≤ fmul (fdiv height 2) (fsub 1 (fdiv p range))
    rw [hhalf]
    exact fl64_nonneg (mul_nonneg (by positivity) ht1)
  · show fmul (fdiv height 2) (fsub 1 (fdiv p range)) ≤ height
    rw [hhalf]
    apply fl64_le_natCast height (lt_of_lt_of_le hh (by norm_num))
    have := mul_le_mul_of_nonneg_left ht2 (by positivity : (0 : ℚ) ≤ (height : ℚ) / 2)
    linarith

theorem stepSize_zero : stepSize 0 = 0 := by
  have := fl64_natCast 0 (by norm_num)
  simpa [stepSize, fdiv] using this

theorem stepSize_bounds (width : ℕ) (hw : 1 ≤ width) :
    (width : ℚ) / 199 * (1 - 1 / 2 ^ 53) ≤ stepSize width
      ∧ stepSize width ≤ (width : ℚ) / 199 * (1 + 1 / 2 ^ 53) := by
  have h1 : (1 : ℚ) ≤ (width : ℚ) := by exact_mod_cast hw
  have hq : (1 : ℚ) / 512 ≤ (width : ℚ) / 199 := by
    rw [le_div_iff₀ (by norm_num)]
    linarith
  have he : stepSize width = fl64 ((width : ℚ) / 199) := by
    simp [stepSize, fdiv, maxDataPoints]
  rw [he]
  exact ⟨mul_le_fl64 hq, fl64_le_mul hq⟩

/-- The abscissa of a vertex: never negative, on the canvas for every index
below 199, and at index 199 beyond the right edge by rounding error at most. -/
theorem plotPoint_fst_bounds (width height : ℕ) (range p : ℤ) (i : ℕ) (hw : width < 2 ^ 32)
    (hi : i ≤ 199) :
    0 ≤ (plotPoint width height range i p).1
      ∧ (i < 199 → (plotPoint width height range i p).1 ≤ width)
      ∧ (plotPoint width height range i p).1 ≤ (width : ℚ) * (1 + 1 / 2 ^ 53) ^ 2 := by
  show 0 ≤ fmul i (stepSize width) ∧ (i < 199 → fmul i (stepSize width) ≤ width)
      ∧ fmul i (stepSize width) ≤ (width : ℚ) * (1 + 1 / 2 ^ 53) ^ 2
  have hw53 : width < 2 ^ 53 := lt_of_lt_of_le hw (by norm_num)
  have hwq : (0 : ℚ) ≤ (width : ℚ) := by positivity
  have hiq : (0 : ℚ) ≤ (i : ℚ) := by positivity
  rcases Nat.eq_zero_or_pos width with hw0 | hwpos
  · subst hw0
    have hz : fmul i (stepSize 0) = 0 := by
      have := fl64_natCast 0 (by norm_num)
      simpa [fmul, stepSize_zero] using this
    rw [hz]
    simp
  · obtain ⟨hs1, hs2⟩ := stepSize_bounds width hwpos
    have h1 : (1 : ℚ) ≤ (width : ℚ) := by exact_mod_cast hwpos
    have hs0 : 0 ≤ stepSize width := by
      refine le_trans ?_ hs1
      apply mul_nonneg (by positivity)
      norm_num
    refine ⟨fl64_nonneg (mul_nonneg hiq hs0), ?_, ?_⟩
    · intro hlt
      apply fl64_le_natCast width hw53
      have hi198 : (i : ℚ) ≤ 198 := by
        have : i ≤ 198 := by omega
        exact_mod_cast this
      calc (i : ℚ) * stepSize width ≤ 198 * stepSize width :=
            mul_le_mul_of_nonneg_right hi198 hs0
        _ ≤ 198 * ((width : ℚ) / 199 * (1 + 1 / 2 ^ 53)) :=
            mul_le_mul_of_nonneg_left hs2 (by norm_num)
        _ = (width : ℚ) * (198 / 199 * (1 + 1 / 2 ^ 53)) := by ring
        _ ≤ (width : ℚ) * 1 := mul_le_mul_of_nonneg_left (by norm_num) hwq
        _ = width := mul_one _
    · rcases Nat.eq_zero_or_pos i with hi0 | hipos
      · subst hi0
        have hz : fmul ((0 : ℕ) : ℚ) (stepSize width) = 0 := by
          have := fl64_natCast 0 (by norm_num)
          simpa [fmul] using this
        rw [hz]
        positivity
      · have hi1 : (1 : ℚ) ≤ (i : ℚ) := by exact_mod_cast hipos
        have hi199 : (i : ℚ) ≤ 199 := by exact_mod_cast hi
        have hlow : (1 : ℚ) / 512 ≤ (i : ℚ) * stepSize width := by
          calc (1 : ℚ) / 512 ≤ 1 / 199 * (1 - 1 / 2 ^ 53) := by norm_num
            _ ≤ (width : ℚ) / 199 * (1 - 1 / 2 ^ 53) := by
                apply mul_le_mul_of_nonneg_right _ (by norm_num)
                exact div_le_div_of_nonneg_right h1 (by norm_num)
            _ ≤ stepSize width := hs1
            _ = 1 * stepSize width := (one_mul _).symm
            _ ≤ (i : ℚ) * stepSize width := mul_le_mul_of_nonneg_right hi1 hs0
        have hup : (i : ℚ) * stepSize width ≤ (width : ℚ) * (1 + 1 / 2 ^ 53) := by
          calc (i : ℚ) * stepSize width ≤ 199 * stepSize width :=
                mul_le_mul_of_nonneg_right hi199 hs0
            _ ≤ 199 * ((width : ℚ) / 199 * (1 + 1 / 2 ^ 53)) :=
                mul_le_mul_of_nonneg_left hs2 (by norm_num)
            _ = (width : ℚ) * (1 + 1 / 2 ^ 53) := by ring
        calc fmul (i : ℚ) (stepSize width)
            ≤ (i : ℚ) * stepSize width * (1 + 1 / 2 ^ 53) := fl64_le_mul hlow
          _ ≤ (width : ℚ) * (1 + 1 / 2 ^ 53) * (1 + 1 / 2 ^ 53) :=
              mul_le_mul_of_nonneg_right hup (by norm_num)
          _ = (width : ℚ) * (1 + 1 / 2 ^ 53) ^ 2 := by ring

theorem foldl_min_mem (xs : List Int) (x : Int) : xs.foldl min x = x ∨ xs.foldl min x ∈ xs := by
  induction xs generalizing x with
  | nil => simp
  | cons y ys ih =>
    simp only [List.foldl_cons, List.mem_cons]
    rcases ih (min x y) with h | h
    · rcases min_choice x y with e | e
      · left; rw [h, e]
      · right; left; rw [h, e]
    · right; right; exact h

theorem foldl_max_mem (xs : List Int) (x : Int) : xs.foldl max x = x ∨ xs.foldl max x ∈ xs := by
  induction xs generalizing x with
  | nil => simp
  | cons y ys ih =>
    simp only [List.foldl_cons, List.mem_cons]
    rcases ih (max x y) with h | h
    · rcases max_choice x y with e | e
      · left; rw [h, e]
      · right; left; rw [h, e]
    · right; right; exact h

theorem listMin_mem {dataPoints : List Int} (h : dataPoints ≠ []) :
    listMin dataPoints ∈ dataPoints := by
  cases dataPoints with
  | nil => exact absurd rfl h
  | cons x xs =>
    rcases foldl_min_mem xs x with e | e
    · exact List.mem_cons.2 (Or.inl e)
    · exact List.mem_cons.2 (Or.inr e)

theorem listMax_mem {dataPoints : List Int} (h : dataPoints ≠ []) :
    listMax dataPoints ∈ dataPoints := by
  cases dataPoints with
  | nil => exact absurd rfl h
  | cons x xs =>
    rcases foldl_max_mem xs x with e | e
    · exact List.mem_cons.2 (Or.inl e)
    · exact List.mem_cons.2 (Or.inr e)

/-- The scale is 1000 or the magnitude of a buffered point. -/
theorem waveRange_attained {dataPoints : List Int} (h : dataPoints ≠ []) :
    waveRange dataPoints = 1000 ∨ ∃ p ∈ dataPoints, waveRange dataPoints = |p| := by
  unfold waveRange
  rcases max_choice (max |listMin dataPoints| |listMax dataPoints|) 1000 with e | e
  · right
    rcases max_choice |listMin dataPoints| |listMax dataPoints| with e2 | e2
    · exact ⟨_, listMin_mem h, by rw [e, e2]⟩
    · exact ⟨_, listMax_mem h, by rw [e, e2]⟩
  · left; exact e

theorem drawWaveform_path (s : State) :
    (drawWaveform s).picture.path = plotPoints s.canvasWidth s.canvasHeight s.dataPoints := by
  by_cases h : s.dataPoints.length = 0
  · have : s.dataPoints = [] := List.length_eq_zero.1 h
    simp [drawWaveform, Picture.blank, plotPoints, this]
  · simp [drawWaveform, h]

theorem plotPoints_get? (width height : ℕ) (dataPoints : List Int) (i : ℕ) (pt : ℚ × ℚ)
    (h : (plotPoints width height dataPoints).get? i = some pt) :
    i < dataPoints.length
      ∧ pt = plotPoint width height (waveRange dataPoints) i (dataPoints.getD i 0) := by
  unfold plotPoints at h
  rw [List.get?_eq_getElem?, List.getElem?_map] at h
  by_cases hi : i < dataPoints.length
  · rw [List.getElem?_range hi] at h
    simp only [Option.map_some'] at h
    exact ⟨hi, (Option.some.inj h).symm⟩
  · rw [List.getElem?_eq_none (by simpa using hi)] at h
    simp at h

theorem stepSize_802 : stepSize 802 = 4537546358230073 / 2 ^ 50 := by
  have h := @roundFloat_eq_of 53 (-1074) ((802 : ℚ) / 199) 2 4537546358230073 (by norm_num)
    (by norm_num) (by norm_num) (by norm_num)
    (by rw [abs_lt]; constructor <;> norm_num [zpow_neg])
  have he : stepSize 802 = roundFloat 53 (-1074) ((802 : ℚ) / 199) := by
    simp [stepSize, fdiv, fl64, maxDataPoints]
  rw [he, h]
  norm_num [zpow_neg]

theorem fmul_199_stepSize_802 : fmul 199 (stepSize 802) = 7054466603810817 / 2 ^ 43 := by
  have h := @roundFloat_eq_of 53 (-1074) ((199 : ℚ) * (4537546358230073 / 2 ^ 50)) 9
    7054466603810817 (by norm_num)
    (by norm_num) (by norm_num) (by norm_num)
    (by rw [abs_lt]; constructor <;> norm_num [zpow_neg])
  rw [fmul, stepSize_802, fl64, h]
  norm_num [zpow_neg]

/-- C10 (amended): the vertical scale of a redraw is
`range = max(|min|, |max|, 1000)` over the visualization buffer, so it is at
least 1000, at most 32768, at least `|p|` for every buffered point `p`, and is
1000 or the magnitude of a buffered point. For a non-empty buffer of at most 200 signed
16-bit values and a canvas whose width and height are `unsigned long` values,
the path has one vertex per buffered point, vertex `i` being
`(i * (width / 199), (height / 2) * (1 - p / range))` evaluated in binary64;
its `y` lies in `[0, height]`, its `x` is never negative, lies in `[0, width]`
for every `i < 199`, and is at most `width * (1 + 2^-53)^2` at `i = 199`. -/
theorem drawWaveform_scale_and_vertices (s : State) (hne : s.dataPoints ≠ [])
    (hlen : s.dataPoints.length ≤ 200)
    (h16 : ∀ p ∈ s.dataPoints, -32768 ≤ p ∧ p ≤ 32767)
    (hw : s.canvasWidth < 2 ^ 32) (hh : s.canvasHeight < 2 ^ 32) :
    (1000 ≤ waveRange s.dataPoints ∧ waveRange s.dataPoints ≤ 32768)
      ∧ (∀ p ∈ s.dataPoints, |p| ≤ waveRange s.dataPoints)
      ∧ (waveRange s.dataPoints = 1000 ∨ ∃ p ∈ s.dataPoints, waveRange s.dataPoints = |p|)
      ∧ (drawWaveform s).picture.path.length = s.dataPoints.length
      ∧ ∀ i pt, (drawWaveform s).picture.path.get? i = some pt →
          pt = plotPoint s.canvasWidth s.canvasHeight (waveRange s.dataPoints) i
                (s.dataPoints.getD i 0)
            ∧ (0 ≤ pt.2 ∧ pt.2 ≤ (s.canvasHeight : ℚ))
            ∧ 0 ≤ pt.1
            ∧ (i < 199 → pt.1 ≤ (s.canvasWidth : ℚ))
            ∧ pt.1 ≤ (s.canvasWidth : ℚ) * (1 + 1 / 2 ^ 53) ^ 2 := by
  refine ⟨⟨waveRange_ge _, ?_⟩, fun p hp => abs_le_waveRange hp, waveRange_attained hne, ?_, ?_⟩
  · rcases waveRange_attained hne with e | ⟨p, hp, e⟩
    · rw [e]
      norm_num
    · rw [e]
      exact abs_le.2 ⟨by linarith [(h16 p hp).1], by linarith [(h16 p hp).2]⟩
  · rw [drawWaveform_path]
    simp [plotPoints]
  · intro i pt hpt
    rw [drawWaveform_path] at hpt
    obtain ⟨hi, rfl⟩ := plotPoints_get? _ _ _ _ _ hpt
    have hmem : s.dataPoints.getD i 0 ∈ s.dataPoints := by
      rw [List.getD_eq_getElem _ _ hi]
      exact List.getElem_mem hi
    have hy := plotPoint_snd_bounds s.canvasWidth s.canvasHeight (waveRange s.dataPoints)
      (s.dataPoints.getD i 0) i hh (waveRange_ge _) (abs_le_waveRange hmem)
    have hx := plotPoint_fst_bounds s.canvasWidth s.canvasHeight (waveRange s.dataPoints)
      (s.dataPoints.getD i 0) i hw (by omega)
    exact ⟨rfl, hy, hx.1, hx.2.1, hx.2.2⟩

theorem drawWaveform_scale_and_vertices_witness :
    threePoints.dataPoints ≠ [] ∧ threePoints.dataPoints.length ≤ 200
      ∧ (∀ p ∈ threePoints.dataPoints, -32768 ≤ p ∧ p ≤ 32767)
      ∧ threePoints.canvasWidth < 2 ^ 32 ∧ threePoints.canvasHeight < 2 ^ 32
      ∧ 1000 ≤ waveRange threePoints.dataPoints
      ∧ (drawWaveform threePoints).picture.path.length = 3 :=
  ⟨by decide, by decide, by decide, by decide, by decide,
    (drawWaveform_scale_and_vertices threePoints (by decide) (by decide) (by decide)
      (by decide) (by decide)).1.1,
    (drawWaveform_scale_and_vertices threePoints (by decide) (by decide) (by decide)
      (by decide) (by decide)).2.2.2.1⟩

/-! ## Stop -/

/-- C4: `stopAudio`, run from any state, leaves the playback flag false and the
playback buffer empty, and hands the text `stop` to the socket exactly when the
variable `websocket` refers to a socket whose `readyState` is `OPEN` (nothing is
sent when no socket was ever built or when the socket is in any other state). -/
theorem stopAudio_resets (s : State) :
    (stopAudio s).isPlaying = false
      ∧ (stopAudio s).audioBuffer = []
      ∧ (stopAudio s).sent
          = if s.sockets.getLast? = some ReadyState.OPEN then s.sent ++ ["stop"] else s.sent := by
  refine ⟨rfl, rfl, ?_⟩
  by_cases h : s.sockets.getLast? = some ReadyState.OPEN
  · have : s.socketOpen = true := by simp [State.socketOpen, State.websocket, h]
    simp [stopAudio, this, h]
  · have : s.socketOpen = false := by simpa [State.socketOpen, State.websocket] using h
    simp [stopAudio, this, h]

/-! ## Frames and the playback flag -/

theorem processAudio_dataPoints (s : State) : (processAudio s).dataPoints = s.dataPoints := by
  unfold processAudio
  split_ifs <;> rfl

theorem handleSamples_dataPoints (s : State) (samples : List Int) :
    (handleSamples s samples).dataPoints
      = limitDataPoints (pushLoop samples (skipRate samples.length) samples.length 0 s.dataPoints) := by
  unfold handleSamples
  simp only []
  split_ifs <;> simp [processAudio_dataPoints]

theorem handleSamples_not_playing (s : State) (samples : List Int) (h : s.isPlaying = false) :
    (handleSamples s samples).audioBuffer = s.audioBuffer
      ∧ (handleSamples s samples).started = s.started := by
  unfold handleSamples
  simp [h]

theorem handleWebSocketMessage_decoded (s : State) (bytes : List Nat) (samples : List Int)
    (hdec : int16Array bytes = some samples) :
    handleWebSocketMessage s (MessageData.arrayBuffer bytes)
      = if samples.length > 0 then handleSamples s samples else s := by
  simp [handleWebSocketMessage, hdec]

/-- A message either leaves the state alone or is a frame that decodes to at
least one sample and is handled by `handleSamples`. -/
theorem handleWebSocketMessage_cases (s : State) (data : MessageData) :
    handleWebSocketMessage s data = s
      ∨ ∃ bytes samples, data = MessageData.arrayBuffer bytes ∧ int16Array bytes = some samples
          ∧ 0 < samples.length ∧ handleWebSocketMessage s data = handleSamples s samples := by
  cases data with
  | text t => exact Or.inl rfl
  | arrayBuffer bytes =>
    cases hdec : int16Array bytes with
    | none => exact Or.inl (by simp [handleWebSocketMessage, hdec])
    | some samples =>
      by_cases hl : 0 < samples.length
      · exact Or.inr ⟨bytes, samples, rfl, hdec, hl, by
          rw [handleWebSocketMessage_decoded s bytes samples hdec, if_pos hl]⟩
      · exact Or.inl (by rw [handleWebSocketMessage_decoded s bytes samples hdec, if_neg hl])

/-- C6: the playback flag gates buffering. For every message delivered while
the flag is false (a binary frame of any length, or a text frame), the playback
buffer and the list of submitted audio blocks are unchanged, while the
visualization buffer after the message is the one the same message produces
with the flag true: it does not depend on the flag. -/
theorem handleWebSocketMessage_flag_gates (s : State) (data : MessageData)
    (h : s.isPlaying = false) :
    (handleWebSocketMessage s data).audioBuffer = s.audioBuffer
      ∧ (handleWebSocketMessage s data).started = s.started
      ∧ (handleWebSocketMessage s data).dataPoints
          = (handleWebSocketMessage { s with isPlaying := true } data).dataPoints := by
  refine ⟨?_, ?_, ?_⟩
  · rcases handleWebSocketMessage_cases s data with e | ⟨bytes, samples, _, _, _, e⟩
    · rw [e]
    · rw [e]
      exact (handleSamples_not_playing s samples h).1
  · rcases handleWebSocketMessage_cases s data with e | ⟨bytes, samples, _, _, _, e⟩
    · rw [e]
    · rw [e]
      exact (handleSamples_not_playing s samples h).2
  · cases data with
    | text t => rfl
    | arrayBuffer bytes =>
      cases hdec : int16Array bytes with
      | none => simp [handleWebSocketMessage, hdec]
      | some samples =>
        rw [handleWebSocketMessage_decoded _ bytes samples hdec,
          handleWebSocketMessage_decoded _ bytes samples hdec]
        by_cases hl : 0 < samples.length
        · rw [if_pos hl, if_pos hl, handleSamples_dataPoints, handleSamples_dataPoints]
        · rw [if_neg hl, if_neg hl]

theorem handleWebSocketMessage_flag_gates_witness :
    State.pageLoad.isPlaying = false
      ∧ (handleWebSocketMessage State.pageLoad threeSamples).audioBuffer = []
      ∧ (handleWebSocketMessage State.pageLoad threeSamples).dataPoints = [1000, -1000, 0]
      ∧ (handleWebSocketMessage { State.pageLoad with isPlaying := true } threeSamples).dataPoints
          = [1000, -1000, 0] :=
  ⟨rfl, (handleWebSocketMessage_flag_gates State.pageLoad threeSamples rfl).1, by decide,
    (handleWebSocketMessage_flag_gates State.pageLoad threeSamples rfl).2.2.symm.trans
      (by decide)⟩

/-! ## Samples -/

theorem toInt16_range (lo hi : Nat) : -32768 ≤ toInt16 lo hi ∧ toInt16 lo hi ≤ 32767 := by
  unfold toInt16
  split_ifs <;> omega

theorem int16Array_range : ∀ (bytes : List Nat) (samples : List Int),
    int16Array bytes = some samples → ∀ x ∈ samples, -32768 ≤ x ∧ x ≤ 32767
  | [], samples, h => by
    simp [int16Array] at h
    subst h
    simp
  | [_], samples, h => by simp [int16Array] at h
  | lo :: hi :: rest, samples, h => by
    simp only [int16Array, Option.map_eq_some'] at h
    obtain ⟨xs, hxs, rfl⟩ := h
    intro x hx
    rcases List.mem_cons.1 hx with rfl | hx
    · exact toInt16_range lo hi
    · exact int16Array_range rest xs hxs x hx

theorem int16Array_length : ∀ (bytes : List Nat) (samples : List Int),
    int16Array bytes = some samples → bytes.length = 2 * samples.length
  | [], samples, h => by
    simp [int16Array] at h
    subst h
    rfl
  | [_], samples, h => by simp [int16Array] at h
  | lo :: hi :: rest, samples, h => by
    simp only [int16Array, Option.map_eq_some'] at h
    obtain ⟨xs, hxs, rfl⟩ := h
    have := int16Array_length rest xs hxs
    simp only [List.length_cons]
    omega

/-- Dividing a signed 16-bit integer by 32768 is exact in binary64. -/
theorem fdiv_int16 (x : Int) (h : -32768 ≤ x ∧ x ≤ 32767) :
    fdiv x 32768 = (x : ℚ) / 32768 := by
  have := @roundFloat_dyadic 53 (-1074) x (-15) (by rw [abs_lt]; constructor <;> omega)
    (by norm_num)
  have h2 : (x : ℚ) * (2 : ℚ) ^ (-15 : ℤ) = (x : ℚ) / 32768 := by
    rw [zpow_neg, div_eq_mul_inv]
    norm_num
  rw [h2] at this
  exact this

/-- A normalized 16-bit sample is a binary32 value. -/
theorem fround_int16 (x : Int) (h : -32768 ≤ x ∧ x ≤ 32767) :
    fround ((x : ℚ) / 32768) = (x : ℚ) / 32768 := by
  have := @roundFloat_dyadic 24 (-149) x (-15) (by rw [abs_lt]; constructor <;> omega)
    (by norm_num)
  have h2 : (x : ℚ) * (2 : ℚ) ^ (-15 : ℤ) = (x : ℚ) / 32768 := by
    rw [zpow_neg, div_eq_mul_inv]
    norm_num
  rw [h2] at this
  exact this

theorem pushAudio_eq (audioBuffer : List ℚ) (samples : List Int) :
    pushAudio audioBuffer samples
      = audioBuffer ++ samples.map (fun (x : Int) => fdiv (x : ℚ) 32768) := by
  unfold pushAudio
  induction samples generalizing audioBuffer with
  | nil => simp
  | cons x xs ih => simp [ih]

theorem pushAudio_exact (audioBuffer : List ℚ) (samples : List Int)
    (h : ∀ x ∈ samples, -32768 ≤ x ∧ x ≤ 32767) :
    pushAudio audioBuffer samples
      = audioBuffer ++ samples.map (fun (x : Int) => (x : ℚ) / 32768) := by
  rw [pushAudio_eq]
  congr 1
  exact List.map_congr_left (fun x hx => fdiv_int16 x (h x hx))

/-! ## Playback buffer -/

/-- Everything `handleSamples` leaves alone. -/
theorem handleSamples_frame (s : State) (samples : List Int) :
    handleSamples s samples
      = { s with dataPoints := (handleSamples s samples).dataPoints
                 audioBuffer := (handleSamples s samples).audioBuffer
                 started := (handleSamples s samples).started
                 frameRequests := s.frameRequests + 1 } := by
  unfold handleSamples processAudio
  simp only []
  split_ifs <;> rfl

theorem handleSamples_audio (s : State) (samples : List Int) (hp : s.isPlaying = true)
    (hc : s.audioContext ≠ none) :
    ((pushAudio s.audioBuffer samples).length < maxAudioBufferSize →
        (handleSamples s samples).audioBuffer = pushAudio s.audioBuffer samples
          ∧ (handleSamples s samples).started = s.started)
      ∧ (maxAudioBufferSize ≤ (pushAudio s.audioBuffer samples).length →
        (handleSamples s samples).audioBuffer = []
          ∧ (handleSamples s samples).started
              = s.started ++ [(pushAudio s.audioBuffer samples).map fround]) := by
  constructor
  · intro hlt
    have : ¬ (pushAudio s.audioBuffer samples).length ≥ maxAudioBufferSize := not_le.2 hlt
    simp [handleSamples, hp, hc, this]
  · intro hge
    have hne : (pushAudio s.audioBuffer samples).length ≠ 0 := by
      have : 0 < maxAudioBufferSize := by decide
      omega
    simp [handleSamples, hp, hc, hge, processAudio, hne]

theorem inv_handleSamples (s : State) (bytes : List Nat) (samples : List Int)
    (hdec : int16Array bytes = some samples) (h : Inv s) : Inv (handleSamples s samples) := by
  have hr := int16Array_range bytes samples hdec
  rw [handleSamples_frame]
  refine ⟨h.1, ?_⟩
  show ∀ v ∈ (handleSamples s samples).audioBuffer, IsNormalized v
  by_cases hp : s.isPlaying = true
  · have hc := h.1 hp
    obtain ⟨h1, h2⟩ := handleSamples_audio s samples hp hc
    by_cases hlt : (pushAudio s.audioBuffer samples).length < maxAudioBufferSize
    · rw [(h1 hlt).1, pushAudio_exact _ _ hr]
      intro v hv
      rcases List.mem_append.1 hv with hv | hv
      · exact h.2 v hv
      · obtain ⟨x, hx, rfl⟩ := List.mem_map.1 hv
        exact ⟨x, hr x hx, rfl⟩
    · rw [(h2 (not_lt.1 hlt)).1]
      simp
  · have hp2 : s.isPlaying = false := by simpa using hp
    rw [(handleSamples_not_playing s samples hp2).1]
    exact h.2

theorem inv_startPlayback (s : State) (hc : s.audioContext ≠ none) : Inv (startPlayback s) := by
  unfold startPlayback
  cases hctx : s.audioContext with
  | none => exact absurd hctx hc
  | some ctx =>
    simp only []
    refine ⟨fun _ => ?_, ?_⟩
    · split_ifs <;> simp [hctx]
    · simp

theorem inv_handle (s : State) (e : Event) (h : Inv s) : Inv (handle s e) := by
  cases e with
  | socketOpen i => exact h
  | socketClosing i => exact h
  | socketClose i => exact ⟨by simp [handle, onclose], h.2⟩
  | socketError i => exact h
  | socketMessage i data =>
    show Inv (handleWebSocketMessage s data)
    rcases handleWebSocketMessage_cases s data with e | ⟨bytes, samples, _, hdec, _, e⟩
    · rw [e]
      exact h
    · rw [e]
      exact inv_handleSamples s bytes samples hdec h
  | timeout =>
    show Inv (connectWebSocket _)
    unfold connectWebSocket
    split_ifs <;> exact h
  | playClick env =>
    show Inv (startAudio s env)
    unfold startAudio
    cases hctx : s.audioContext with
    | some ctx => exact inv_startPlayback s (by simp [hctx])
    | none =>
      cases env with
      | throws => exact h
      | created st => exact inv_startPlayback _ (by simp)
  | stopClick => exact ⟨by simp [handle, stopAudio], by simp [handle, stopAudio]⟩
  | resize w h2 =>
    show Inv (drawWaveform _)
    unfold drawWaveform
    split_ifs <;> exact h
  | animationFrame =>
    show Inv (drawWaveform _)
    unfold drawWaveform
    split_ifs <;> exact h
  | contextState st =>
    refine ⟨fun hp => ?_, h.2⟩
    have := h.1 hp
    cases hctx : s.audioContext with
    | none => exact absurd hctx this
    | some ctx => simp [handle, hctx]

theorem inv_run (es : List Event) : ∀ (s t : State), Inv s → run s es = some t → Inv t := by
  induction es with
  | nil =>
    intro s t h hr
    simp only [run, Option.some.injEq] at hr
    exact hr ▸ h
  | cons e es ih =>
    intro s t h hr
    simp only [run] at hr
    split_ifs at hr
    exact ih _ t (inv_handle s e h) hr

theorem inv_init (w h : Nat) : Inv (init State.pageLoad w h) := by
  have h1 : (init State.pageLoad w h).isPlaying = false := rfl
  have h2 : (init State.pageLoad w h).audioBuffer = [] := rfl
  constructor
  · intro hp
    rw [h1] at hp
    exact absurd hp (by decide)
  · intro v hv
    rw [h2] at hv
    exact absurd hv (List.not_mem_nil v)

theorem Reachable.inv {s : State} (h : Reachable s) : Inv s := by
  obtain ⟨w, ht, es, hr⟩ := h
  exact inv_run es _ s (inv_init w ht) hr

theorem map_fround_normalized (l : List ℚ) (h : ∀ v ∈ l, IsNormalized v) : l.map fround = l := by
  have : l.map fround = l.map id := by
    apply List.map_congr_left
    intro v hv
    obtain ⟨x, hx, rfl⟩ := h v hv
    exact fround_int16 x hx
  rw [this, List.map_id]

theorem normalized_bounds (x : Int) (h : -32768 ≤ x ∧ x ≤ 32767) :
    -1 ≤ (x : ℚ) / 32768 ∧ (x : ℚ) / 32768 ≤ 1 := by
  have h1 : (-32768 : ℚ) ≤ (x : ℚ) := by exact_mod_cast h.1
  have h2 : (x : ℚ) ≤ 32767 := by exact_mod_cast h.2
  constructor
  · rw [le_div_iff₀ (by norm_num)]
    linarith
  · rw [div_le_iff₀ (by norm_num)]
    linarith

/-- The effect of a decoded frame on the playback side while playback is on:
below the threshold the normalized samples are appended; from the threshold on
the whole accumulation is started as one block and the buffer is emptied. -/
theorem handleSamples_playback (s : State) (bytes : List Nat) (samples : List Int)
    (hnorm : ∀ v ∈ s.audioBuffer, IsNormalized v) (hp : s.isPlaying = true)
    (hc : s.audioContext ≠ none) (hdec : int16Array bytes = some samples) :
    (s.audioBuffer.length + samples.length < 65536 →
        (handleSamples s samples).audioBuffer
            = s.audioBuffer ++ samples.map (fun (x : Int) => (x : ℚ) / 32768)
          ∧ (handleSamples s samples).started = s.started)
      ∧ (65536 ≤ s.audioBuffer.length + samples.length →
        (handleSamples s samples).audioBuffer = []
          ∧ (handleSamples s samples).started
              = s.started ++ [s.audioBuffer ++ samples.map (fun (x : Int) => (x : ℚ) / 32768)]) := by
  have hr := int16Array_range bytes samples hdec
  have hpush := pushAudio_exact s.audioBuffer samples hr
  have hlen : (pushAudio s.audioBuffer samples).length = s.audioBuffer.length + samples.length := by
    rw [hpush]
    simp
  obtain ⟨h1, h2⟩ := handleSamples_audio s samples hp hc
  rw [hlen] at h1 h2
  constructor
  · intro hlt
    have := h1 hlt
    rw [hpush] at this
    exact this
  · intro hge
    have := h2 hge
    rw [hpush] at this
    refine ⟨this.1, ?_⟩
    rw [this.2, map_fround_normalized]
    intro v hv
    rcases List.mem_append.1 hv with hv | hv
    · exact hnorm v hv
    · obtain ⟨x, hx, rfl⟩ := List.mem_map.1 hv
      exact ⟨x, hr x hx, rfl⟩

theorem playingPage_reachable : Reachable playingPage :=
  ⟨300, 150, [Event.socketOpen 0, Event.playClick (AudioInit.created ContextState.running)], rfl⟩

theorem init_reachable (w h : Nat) : Reachable (init State.pageLoad w h) := ⟨w, h, [], rfl⟩

/-- C2: with playback enabled and an audio context present, a frame of
`N ≥ 1` samples arriving on a playback buffer of length `L` has this effect.
If `L + N < 65536` no block is submitted and the buffer becomes its old
contents followed by the `N` normalized samples. If `L + N ≥ 65536` exactly one
block is submitted, it holds all `L + N` accumulated values in arrival order,
and the buffer is empty afterwards. -/
theorem handleWebSocketMessage_playback (s : State) (bytes : List Nat) (samples : List Int)
    (hr : Reachable s) (hp : s.isPlaying = true) (hc : s.audioContext ≠ none)
    (hdec : int16Array bytes = some samples) (hN : 1 ≤ samples.length) :
    (s.audioBuffer.length + samples.length < 65536 →
        (handleWebSocketMessage s (MessageData.arrayBuffer bytes)).audioBuffer
            = s.audioBuffer ++ samples.map (fun (x : Int) => (x : ℚ) / 32768)
          ∧ (handleWebSocketMessage s (MessageData.arrayBuffer bytes)).started = s.started)
      ∧ (65536 ≤ s.audioBuffer.length + samples.length →
        (handleWebSocketMessage s (MessageData.arrayBuffer bytes)).started
            = s.started ++ [s.audioBuffer ++ samples.map (fun (x : Int) => (x : ℚ) / 32768)]
          ∧ (handleWebSocketMessage s (MessageData.arrayBuffer bytes)).audioBuffer = []) := by
  have hpos : samples.length > 0 := hN
  rw [handleWebSocketMessage_decoded s bytes samples hdec, if_pos hpos]
  obtain ⟨h1, h2⟩ := handleSamples_playback s bytes samples hr.inv.2 hp hc hdec
  exact ⟨h1, fun hge => ⟨(h2 hge).2, (h2 hge).1⟩⟩

theorem int16Array_zeros (n : Nat) :
    int16Array (List.replicate (2 * n) 0) = some (List.replicate n 0) := by
  induction n with
  | zero => rfl
  | succ n ih =>
    have : 2 * (n + 1) = (2 * n + 1) + 1 := by ring
    rw [this, List.replicate_succ, List.replicate_succ]
    simp only [int16Array, ih]
    rfl

theorem handleWebSocketMessage_playback_witness :
    (Reachable playingPage ∧ playingPage.isPlaying = true ∧ playingPage.audioContext ≠ none)
      ∧ int16Array threeSampleBytes = some [1000, -1000, 0]
      ∧ (handleWebSocketMessage playingPage (MessageData.arrayBuffer threeSampleBytes)).audioBuffer
          = playingPage.audioBuffer
              ++ ([1000, -1000, 0] : List Int).map (fun (x : Int) => (x : ℚ) / 32768)
      ∧ int16Array (List.replicate (2 * 65536) 0) = some (List.replicate 65536 0)
      ∧ (handleWebSocketMessage playingPage
            (MessageData.arrayBuffer (List.replicate (2 * 65536) 0))).audioBuffer = []
      ∧ (handleWebSocketMessage playingPage
            (MessageData.arrayBuffer (List.replicate (2 * 65536) 0))).started.length
          = playingPage.started.length + 1 :=
  have hflush := (handleWebSocketMessage_playback playingPage (List.replicate (2 * 65536) 0)
      (List.replicate 65536 0) playingPage_reachable rfl (by decide) (int16Array_zeros 65536)
      (by rw [List.length_replicate]; norm_num)).2
      (by rw [List.length_replicate]; exact Nat.le_add_left _ _)
  ⟨⟨playingPage_reachable, rfl, by decide⟩, by decide,
    ((handleWebSocketMessage_playback playingPage threeSampleBytes [1000, -1000, 0]
      playingPage_reachable rfl (by decide) (by decide) (by decide)).1 (by decide)).1,
    int16Array_zeros 65536, hflush.2, by rw [hflush.1, List.length_append]; rfl⟩

/-- C5: for every frame processed while playback is enabled, the push loop
adds exactly one value per sample of the frame, in frame order and without
downsampling, each equal to the signed 16-bit sample divided by 32768 (the
binary64 division is exact) and each within `[-1, 1]`. Below the threshold the
playback buffer after the frame is its old contents followed by these values;
from the threshold on they end the block that is submitted. -/
theorem handleWebSocketMessage_normalizes (s : State) (bytes : List Nat) (samples : List Int)
    (hr : Reachable s) (hp : s.isPlaying = true) (hdec : int16Array bytes = some samples) :
    pushAudio s.audioBuffer samples
        = s.audioBuffer ++ samples.map (fun (x : Int) => (x : ℚ) / 32768)
      ∧ (pushAudio s.audioBuffer samples).length = s.audioBuffer.length + samples.length
      ∧ (∀ x ∈ samples, -1 ≤ (x : ℚ) / 32768 ∧ (x : ℚ) / 32768 ≤ 1)
      ∧ (s.audioBuffer.length + samples.length < 65536 →
          (handleWebSocketMessage s (MessageData.arrayBuffer bytes)).audioBuffer
            = s.audioBuffer ++ samples.map (fun (x : Int) => (x : ℚ) / 32768))
      ∧ (0 < samples.length → 65536 ≤ s.audioBuffer.length + samples.length →
          (handleWebSocketMessage s (MessageData.arrayBuffer bytes)).started
            = s.started ++ [s.audioBuffer ++ samples.map (fun (x : Int) => (x : ℚ) / 32768)]) := by
  have hrange := int16Array_range bytes samples hdec
  have hpush := pushAudio_exact s.audioBuffer samples hrange
  obtain ⟨h1, h2⟩ := handleSamples_playback s bytes samples hr.inv.2 hp (hr.inv.1 hp) hdec
  refine ⟨hpush, ?_, fun x hx => normalized_bounds x (hrange x hx), ?_, ?_⟩
  · rw [hpush]
    simp
  · intro hlt
    rw [handleWebSocketMessage_decoded s bytes samples hdec]
    by_cases hpos : samples.length > 0
    · rw [if_pos hpos]
      exact (h1 hlt).1
    · rw [if_neg hpos]
      have : samples = [] := List.length_eq_zero.1 (by omega)
      simp [this]
  · intro hpos hge
    rw [handleWebSocketMessage_decoded s bytes samples hdec, if_pos hpos]
    exact (h2 hge).2

theorem handleWebSocketMessage_normalizes_witness :
    Reachable playingPage ∧ playingPage.isPlaying = true
      ∧ int16Array threeSampleBytes = some [1000, -1000, 0]
      ∧ pushAudio [] [1000, -1000, 0] = [1000 / 32768, -1000 / 32768, 0] :=
  ⟨playingPage_reachable, rfl, by decide, by
    have h := (handleWebSocketMessage_normalizes playingPage threeSampleBytes [1000, -1000, 0]
      playingPage_reachable rfl (by decide)).1
    have e : playingPage.audioBuffer = [] := rfl
    rw [e] at h
    rw [h]
    norm_num⟩

/-! ## Start -/

theorem socketOpen_iff (s : State) :
    s.socketOpen = true ↔ s.sockets.getLast? = some ReadyState.OPEN := by
  simp [State.socketOpen, State.websocket]

theorem startPlayback_fields (s : State) (hc : s.audioContext ≠ none) :
    (startPlayback s).isPlaying = true ∧ (startPlayback s).audioBuffer = []
      ∧ (startPlayback s).sent
          = if s.sockets.getLast? = some ReadyState.OPEN then s.sent ++ ["play"] else s.sent := by
  unfold startPlayback
  cases hctx : s.audioContext with
  | none => exact absurd hctx hc
  | some ctx =>
    simp only []
    refine ⟨trivial, trivial, ?_⟩
    by_cases ho : s.sockets.getLast? = some ReadyState.OPEN
    · have h1 : s.socketOpen = true := (socketOpen_iff s).2 ho
      by_cases hs : ctx.state = ContextState.suspended
      · simp [hs, ho, State.socketOpen, State.websocket]
      · simp [hs, ho, h1]
    · have h1 : s.socketOpen = false := by
        simpa [State.socketOpen, State.websocket] using ho
      by_cases hs : ctx.state = ContextState.suspended
      · simp [hs, ho, State.socketOpen, State.websocket]
      · simp [hs, ho, h1]

/-- C7: if no audio context exists yet and building one fails, `startAudio`
writes `Audio initialization failed. Please try a different browser.` into the
status area and changes nothing else: the playback flag stays false, the
playback buffer is unchanged and no `play` command is sent. In every other case
(a context exists already, or building one succeeds) `startAudio` ends with the
playback flag true and the playback buffer empty, and sends `play` exactly when
the variable `websocket` refers to a socket whose `readyState` is `OPEN`. -/
theorem startAudio_outcomes (s : State) (env : AudioInit) (hr : Reachable s) :
    (s.audioContext = none ∧ env = AudioInit.throws →
        startAudio s env
            = { s with statusText :=
                  "Audio initialization failed. Please try a different browser." }
          ∧ (startAudio s env).isPlaying = false
          ∧ (startAudio s env).audioBuffer = s.audioBuffer
          ∧ (startAudio s env).sent = s.sent)
      ∧ (¬ (s.audioContext = none ∧ env = AudioInit.throws) →
        (startAudio s env).isPlaying = true
          ∧ (startAudio s env).audioBuffer = []
          ∧ (startAudio s env).sent
              = if s.sockets.getLast? = some ReadyState.OPEN then s.sent ++ ["play"]
                else s.sent) := by
  constructor
  · rintro ⟨hctx, rfl⟩
    have hnp : s.isPlaying = false := by
      cases hp : s.isPlaying with
      | false => rfl
      | true => exact absurd hctx (hr.inv.1 hp)
    have e : startAudio s AudioInit.throws
        = { s with statusText :=
              "Audio initialization failed. Please try a different browser." } := by
      simp [startAudio, hctx, initAudio]
    rw [e]
    exact ⟨rfl, hnp, rfl, rfl⟩
  · intro hn
    cases hctx : s.audioContext with
    | some ctx =>
      have e : startAudio s env = startPlayback s := by simp [startAudio, hctx]
      rw [e]
      exact startPlayback_fields s (by simp [hctx])
    | none =>
      cases env with
      | throws => exact absurd ⟨hctx, rfl⟩ hn
      | created st =>
        have e : startAudio s (AudioInit.created st)
            = startPlayback { s with audioContext := some { sampleRate := 44100, state := st }
                                     gainNode := some { gain := 3 } } := by
          simp [startAudio, hctx, initAudio]
        rw [e]
        exact startPlayback_fields _ (by simp)

theorem startAudio_outcomes_witness :
    Reachable (init State.pageLoad 300 150)
      ∧ (startAudio (init State.pageLoad 300 150) AudioInit.throws).statusText
          = "Audio initialization failed. Please try a different browser."
      ∧ (startAudio (init State.pageLoad 300 150) AudioInit.throws).isPlaying = false
      ∧ (startAudio (init State.pageLoad 300 150)
          (AudioInit.created ContextState.running)).isPlaying = true :=
  ⟨init_reachable 300 150, by
    rw [((startAudio_outcomes (init State.pageLoad 300 150) AudioInit.throws
      (init_reachable 300 150)).1 ⟨rfl, rfl⟩).1],
    ((startAudio_outcomes (init State.pageLoad 300 150) AudioInit.throws
      (init_reachable 300 150)).1 ⟨rfl, rfl⟩).2.1,
    ((startAudio_outcomes (init State.pageLoad 300 150) (AudioInit.created ContextState.running)
      (init_reachable 300 150)).2 (by decide)).1⟩

/-! ## Connection life cycle -/

theorem drawWaveform_frame (s : State) :
    drawWaveform s = { s with picture := (drawWaveform s).picture } := by
  unfold drawWaveform
  split_ifs <;> rfl

theorem handleWebSocketMessage_frame (s : State) (data : MessageData) :
    handleWebSocketMessage s data
      = { s with dataPoints := (handleWebSocketMessage s data).dataPoints
                 audioBuffer := (handleWebSocketMessage s data).audioBuffer
                 started := (handleWebSocketMessage s data).started
                 frameRequests := (handleWebSocketMessage s data).frameRequests } := by
  rcases handleWebSocketMessage_cases s data with e | ⟨bytes, samples, _, _, _, e⟩
  · rw [e]
  · rw [e]
    conv_lhs => rw [handleSamples_frame]
    conv_rhs => rw [handleSamples_frame]

theorem startPlayback_sockets (s : State) :
    (startPlayback s).sockets = s.sockets ∧ (startPlayback s).timers = s.timers
      ∧ (startPlayback s).reconnectAttempts = s.reconnectAttempts := by
  unfold startPlayback
  cases s.audioContext with
  | none => exact ⟨rfl, rfl, rfl⟩
  | some ctx =>
    simp only []
    split_ifs <;> exact ⟨rfl, rfl, rfl⟩

theorem startAudio_sockets (s : State) (env : AudioInit) :
    (startAudio s env).sockets = s.sockets ∧ (startAudio s env).timers = s.timers
      ∧ (startAudio s env).reconnectAttempts = s.reconnectAttempts := by
  unfold startAudio
  cases s.audioContext with
  | some ctx => exact startPlayback_sockets s
  | none =>
    cases env with
    | throws => exact ⟨rfl, rfl, rfl⟩
    | created st => exact startPlayback_sockets _

theorem stopAudio_sockets (s : State) :
    (stopAudio s).sockets = s.sockets ∧ (stopAudio s).timers = s.timers
      ∧ (stopAudio s).reconnectAttempts = s.reconnectAttempts := by
  unfold stopAudio
  simp only []
  split_ifs <;> exact ⟨rfl, rfl, rfl⟩

/-- Events outside the connection life cycle build no socket, arm no timer and
leave the retry counter alone. -/
theorem handle_local (s : State) (e : Event) (he : e.isLocal = true) :
    (handle s e).sockets = s.sockets ∧ (handle s e).timers = s.timers
      ∧ (handle s e).reconnectAttempts = s.reconnectAttempts := by
  cases e with
  | socketOpen i => simp [Event.isLocal] at he
  | socketClosing i => simp [Event.isLocal] at he
  | socketClose i => simp [Event.isLocal] at he
  | timeout => simp [Event.isLocal] at he
  | socketError i => exact ⟨rfl, rfl, rfl⟩
  | socketMessage i data =>
    show (handleWebSocketMessage s data).sockets = _ ∧ (handleWebSocketMessage s data).timers = _
      ∧ (handleWebSocketMessage s data).reconnectAttempts = _
    rw [handleWebSocketMessage_frame]
    exact ⟨rfl, rfl, rfl⟩
  | playClick env => exact startAudio_sockets s env
  | stopClick => exact stopAudio_sockets s
  | resize w h =>
    show (drawWaveform _).sockets = _ ∧ (drawWaveform _).timers = _
      ∧ (drawWaveform _).reconnectAttempts = _
    rw [drawWaveform_frame]
    exact ⟨rfl, rfl, rfl⟩
  | animationFrame =>
    show (drawWaveform _).sockets = _ ∧ (drawWaveform _).timers = _
      ∧ (drawWaveform _).reconnectAttempts = _
    rw [drawWaveform_frame]
    exact ⟨rfl, rfl, rfl⟩
  | contextState st => exact ⟨rfl, rfl, rfl⟩

theorem foldl_handle_local (es : List Event) :
    ∀ s : State, (∀ e ∈ es, e.isLocal = true) →
      (es.foldl handle s).sockets = s.sockets ∧ (es.foldl handle s).timers = s.timers
        ∧ (es.foldl handle s).reconnectAttempts = s.reconnectAttempts := by
  induction es with
  | nil => intro s _; exact ⟨rfl, rfl, rfl⟩
  | cons e es ih =>
    intro s h
    have h1 := handle_local s e (h e (List.mem_cons_self _ _))
    have h2 := ih (handle s e) (fun e2 he2 => h e2 (List.mem_cons_of_mem _ he2))
    simp only [List.foldl_cons]
    exact ⟨h2.1.trans h1.1, h2.2.1.trans h1.2.1, h2.2.2.trans h1.2.2⟩

/-- C3: once the retry limit is reached no further connection attempt is made
and the status shows the permanent failure. Whenever `connectWebSocket` runs
with the retry counter at 5 or more, it only writes the status text
`Connection failed after multiple attempts. Please reload the page.` and the
class `status disconnected`: it builds no socket and arms no retry timer. From
the state it leaves, no sequence of frames, socket errors, play or stop clicks,
resizes, redraws or audio state changes builds a socket or arms a timer, and the
retry counter stays where it is. -/
theorem connectWebSocket_gives_up (s : State) (es : List Event)
    (h : 5 ≤ s.reconnectAttempts) (hes : ∀ e ∈ es, e.isLocal = true) :
    connectWebSocket s
        = { s with statusText :=
                     "Connection failed after multiple attempts. Please reload the page."
                   statusClass := "status disconnected" }
      ∧ (connectWebSocket s).sockets = s.sockets
      ∧ (connectWebSocket s).timers = s.timers
      ∧ (es.foldl handle (connectWebSocket s)).sockets = s.sockets
      ∧ (es.foldl handle (connectWebSocket s)).timers = s.timers
      ∧ 5 ≤ (es.foldl handle (connectWebSocket s)).reconnectAttempts := by
  have e : connectWebSocket s
      = { s with statusText :=
                   "Connection failed after multiple attempts. Please reload the page."
                 statusClass := "status disconnected" } := by
    unfold connectWebSocket
    rw [if_pos (by simpa [maxReconnectAttempts] using h)]
  have hf := foldl_handle_local es (connectWebSocket s) hes
  rw [e] at hf ⊢
  exact ⟨rfl, rfl, rfl, hf.1, hf.2.1, by rw [hf.2.2]; exact h⟩

theorem connectWebSocket_gives_up_witness :
    5 ≤ fiveFailures.reconnectAttempts
      ∧ (connectWebSocket fiveFailures).statusText
          = "Connection failed after multiple attempts. Please reload the page."
      ∧ (connectWebSocket fiveFailures).statusClass = "status disconnected"
      ∧ ([Event.socketMessage 4 threeSamples, Event.playClick AudioInit.throws, Event.stopClick,
            Event.resize 640 200].foldl handle (connectWebSocket fiveFailures)).sockets.length
          = 5 :=
  have h := connectWebSocket_gives_up fiveFailures
    [Event.socketMessage 4 threeSamples, Event.playClick AudioInit.throws, Event.stopClick,
      Event.resize 640 200] (by decide) (by decide)
  ⟨by decide, by rw [h.1], by rw [h.1], by rw [h.2.2.2.1]; rfl⟩

/-! ### Runs in which no connection ever opens -/

theorem get?_replicate_closed (n i : Nat) (r : ReadyState)
    (h : (List.replicate n ReadyState.CLOSED).get? i = some r) : r = ReadyState.CLOSED := by
  rw [List.get?_eq_getElem?, List.getElem?_replicate] at h
  split_ifs at h
  exact (Option.some.inj h).symm

theorem get?_connecting (n i : Nat) (r : ReadyState)
    (h : (List.replicate n ReadyState.CLOSED ++ [ReadyState.CONNECTING]).get? i = some r) :
    r = ReadyState.CLOSED ∨ (r = ReadyState.CONNECTING ∧ i = n) := by
  rw [List.get?_eq_getElem?] at h
  rcases Nat.lt_trichotomy i n with hlt | heq | hgt
  · rw [List.getElem?_append_left (by simpa using hlt), List.getElem?_replicate, if_pos hlt] at h
    exact Or.inl (Option.some.inj h).symm
  · subst heq
    rw [List.getElem?_append_right (by simp)] at h
    simp at h
    exact Or.inr ⟨h.symm, rfl⟩
  · rw [List.getElem?_append_right (by simpa using le_of_lt hgt)] at h
    have : i - (List.replicate n ReadyState.CLOSED).length ≠ 0 := by simp; omega
    obtain ⟨k, hk⟩ := Nat.exists_eq_succ_of_ne_zero this
    rw [hk] at h
    simp at h

theorem set_connecting (n : Nat) :
    (List.replicate n ReadyState.CLOSED ++ [ReadyState.CONNECTING]).set n ReadyState.CLOSED
      = List.replicate (n + 1) ReadyState.CLOSED := by
  rw [List.set_append_right _ _ (by simp)]
  simp [List.replicate_succ']

theorem drawWaveform_same (s : State) : SameConnection s (drawWaveform s) := by
  rw [drawWaveform_frame]
  exact ⟨rfl, rfl, rfl, rfl, rfl, rfl, rfl⟩

theorem handleWebSocketMessage_same (s : State) (data : MessageData) :
    SameConnection s (handleWebSocketMessage s data) := by
  rw [handleWebSocketMessage_frame]
  exact ⟨rfl, rfl, rfl, rfl, rfl, rfl, rfl⟩

/-- Redraws, resizes, socket errors, frames and audio state changes respect
the shape. -/
theorem closedRun_of_same (s t : State) (h : ClosedRun s) (hst : SameConnection s t) :
    ClosedRun t := by
  obtain ⟨h1, h2, h3, h4, h5, h6, h7⟩ := hst
  unfold ClosedRun at h ⊢
  rw [h1, h2, h3, h4, h5, h6, h7]
  exact h

theorem closedRun_handle (s : State) (e : Event) (h : ClosedRun s) (hen : enabled s e = true)
    (hno : e.isOpen = false) : ClosedRun (handle s e) := by
  obtain ⟨hpd, hsd, n, hn⟩ := h
  cases e with
  | socketOpen i => simp [Event.isOpen] at hno
  | socketClosing i =>
    exfalso
    simp only [enabled, beq_iff_eq] at hen
    rcases hn with ⟨hs, _⟩ | ⟨hs, _⟩ | ⟨hs, _⟩
    · rw [hs] at hen
      rcases get?_connecting _ _ _ hen with e | ⟨e, _⟩ <;> exact absurd e (by decide)
    · rw [hs] at hen
      exact absurd (get?_replicate_closed _ _ _ hen) (by decide)
    · rw [hs] at hen
      exact absurd (get?_replicate_closed _ _ _ hen) (by decide)
  | socketClose i =>
    simp only [enabled, Bool.or_eq_true, beq_iff_eq] at hen
    rcases hn with ⟨hs, ht, ha, hlt⟩ | ⟨hs, _⟩ | ⟨hs, _⟩
    · have hi : i = n := by
        rw [hs] at hen
        rcases hen with (hen | hen) | hen
        · rcases get?_connecting _ _ _ hen with e | ⟨_, e⟩
          · exact absurd e (by decide)
          · exact e
        · rcases get?_connecting _ _ _ hen with e | ⟨e, _⟩ <;> exact absurd e (by decide)
        · rcases get?_connecting _ _ _ hen with e | ⟨e, _⟩ <;> exact absurd e (by decide)
      subst hi
      refine ⟨rfl, rfl, i + 1, Or.inr (Or.inl ⟨?_, ?_, ?_, ?_⟩)⟩
      · show s.sockets.set i ReadyState.CLOSED = _
        rw [hs, set_connecting]
      · show s.timers + 1 = 1
        rw [ht]
      · show s.reconnectAttempts + 1 = i + 1
        rw [ha]
      · omega
    · exfalso
      rw [hs] at hen
      rcases hen with (hen | hen) | hen <;>
        exact absurd (get?_replicate_closed _ _ _ hen) (by decide)
    · exfalso
      rw [hs] at hen
      rcases hen with (hen | hen) | hen <;>
        exact absurd (get?_replicate_closed _ _ _ hen) (by decide)
  | socketError i => exact ⟨hpd, hsd, n, hn⟩
  | socketMessage i data =>
    exact closedRun_of_same s _ ⟨hpd, hsd, n, hn⟩ (handleWebSocketMessage_same s data)
  | timeout =>
    simp only [enabled, decide_eq_true_eq] at hen
    rcases hn with ⟨_, ht, _⟩ | ⟨hs, ht, ha, hle⟩ | ⟨_, ht, _⟩
    · omega
    · show ClosedRun (connectWebSocket _)
      unfold connectWebSocket
      by_cases h5 : n = 5
      · subst h5
        rw [if_pos (by simp [maxReconnectAttempts, ha])]
        exact ⟨hpd, hsd, 5, Or.inr (Or.inr ⟨hs, by simp [ht], ha, rfl, rfl⟩)⟩
      · rw [if_neg (by simp [maxReconnectAttempts, ha]; omega)]
        exact ⟨hpd, hsd, n, Or.inl ⟨by simp [hs], by simp [ht], ha, by omega⟩⟩
    · omega
  | playClick env => simp [enabled, hpd] at hen
  | stopClick => simp [enabled, hsd] at hen
  | resize w h2 =>
    exact closedRun_of_same s _ ⟨hpd, hsd, n, hn⟩ (drawWaveform_same _)
  | animationFrame =>
    exact closedRun_of_same s _ ⟨hpd, hsd, n, hn⟩ (drawWaveform_same _)
  | contextState st => exact ⟨hpd, hsd, n, hn⟩

theorem closedRun_run (es : List Event) :
    ∀ s t : State, ClosedRun s → (∀ e ∈ es, e.isOpen = false) → run s es = some t →
      ClosedRun t := by
  induction es with
  | nil =>
    intro s t h _ hr
    simp only [run, Option.some.injEq] at hr
    exact hr ▸ h
  | cons e es ih =>
    intro s t h hno hr
    simp only [run] at hr
    split_ifs at hr with hen
    exact ih _ t (closedRun_handle s e h hen (hno e (List.mem_cons_self _ _)))
      (fun e2 he2 => hno e2 (List.mem_cons_of_mem _ he2)) hr

theorem closedRun_init (w h : Nat) : ClosedRun (init State.pageLoad w h) :=
  ⟨rfl, rfl, 0, Or.inl ⟨rfl, rfl, rfl, by decide⟩⟩

/-- C8: the retry cap counts consecutive failures and is reset by success. A
successful open sets the retry counter to 0 whatever it was; every close adds
one to it and arms one reconnect timer. In a run from page load in which no
connection ever opens, at most 5 sockets exist at any time, and once nothing is
pending any more (no timer, every socket closed) exactly 5 sockets have been
built (the first attempt and four retries), the counter is 5 and the status
shows the permanent failure. -/
theorem reconnect_cap (s : State) (i w h : Nat) (es : List Event) (t : State)
    (hno : ∀ e ∈ es, e.isOpen = false) (hrun : run (init State.pageLoad w h) es = some t) :
    (handle s (Event.socketOpen i)).reconnectAttempts = 0
      ∧ ((handle s (Event.socketClose i)).reconnectAttempts = s.reconnectAttempts + 1
        ∧ (handle s (Event.socketClose i)).timers = s.timers + 1)
      ∧ t.sockets.length ≤ 5
      ∧ (t.timers = 0 → (∀ r ∈ t.sockets, r = ReadyState.CLOSED) →
          t.sockets.length = 5 ∧ t.reconnectAttempts = 5
            ∧ t.statusText
                = "Connection failed after multiple attempts. Please reload the page."
            ∧ t.statusClass = "status disconnected") := by
  refine ⟨rfl, ⟨rfl, rfl⟩, ?_, ?_⟩
  · obtain ⟨_, _, n, hn⟩ := closedRun_run es _ t (closedRun_init w h) hno hrun
    rcases hn with ⟨hs, _, _, hlt⟩ | ⟨hs, _, _, hle⟩ | ⟨hs, _⟩
    · rw [hs]
      simp
      omega
    · rw [hs]
      simpa using hle
    · rw [hs]
      simp
  · intro ht hall
    obtain ⟨_, _, n, hn⟩ := closedRun_run es _ t (closedRun_init w h) hno hrun
    rcases hn with ⟨hs, _⟩ | ⟨_, ht1, _⟩ | ⟨hs, _, ha, hst, hsc⟩
    · exact absurd (hall ReadyState.CONNECTING (by rw [hs]; simp)) (by decide)
    · omega
    · exact ⟨by rw [hs]; simp, ha, hst, hsc⟩

theorem reconnect_cap_witness :
    (∀ e ∈ fiveCloses, e.isOpen = false)
      ∧ run (init State.pageLoad 300 150) fiveCloses = some gaveUp
      ∧ gaveUp.timers = 0 ∧ (∀ r ∈ gaveUp.sockets, r = ReadyState.CLOSED)
      ∧ gaveUp.sockets.length = 5 ∧ gaveUp.reconnectAttempts = 5
      ∧ gaveUp.statusText = "Connection failed after multiple attempts. Please reload the page." :=
  have h := (reconnect_cap State.pageLoad 0 300 150 fiveCloses gaveUp (by decide) rfl).2.2.2
    rfl (by decide)
  ⟨by decide, rfl, rfl, by decide, h.1, h.2.1, h.2.2.1⟩

/-! ### After giving up nothing but local events can occur -/

theorem set_last (n : Nat) (r r2 : ReadyState) :
    (List.replicate n ReadyState.CLOSED ++ [r]).set n r2
      = List.replicate n ReadyState.CLOSED ++ [r2] := by
  rw [List.set_append_right _ _ (by simp)]
  simp

theorem get?_last (n i : Nat) (r r2 : ReadyState)
    (h : (List.replicate n ReadyState.CLOSED ++ [r]).get? i = some r2) :
    r2 = ReadyState.CLOSED ∨ (r2 = r ∧ i = n) := by
  rw [List.get?_eq_getElem?] at h
  rcases Nat.lt_trichotomy i n with hlt | heq | hgt
  · rw [List.getElem?_append_left (by simpa using hlt), List.getElem?_replicate, if_pos hlt] at h
    exact Or.inl (Option.some.inj h).symm
  · subst heq
    rw [List.getElem?_append_right (by simp)] at h
    simp at h
    exact Or.inr ⟨h.symm, rfl⟩
  · rw [List.getElem?_append_right (by simpa using le_of_lt hgt)] at h
    have : i - (List.replicate n ReadyState.CLOSED).length ≠ 0 := by simp; omega
    obtain ⟨k, hk⟩ := Nat.exists_eq_succ_of_ne_zero this
    rw [hk] at h
    simp at h

theorem onePending_of_same (s t : State) (h : OnePending s) (h1 : t.sockets = s.sockets)
    (h2 : t.timers = s.timers) : OnePending t := by
  unfold OnePending at h ⊢
  rw [h1, h2]
  exact h

theorem onePending_handle (s : State) (e : Event) (h : OnePending s)
    (hen : enabled s e = true) : OnePending (handle s e) := by
  by_cases hl : e.isLocal = true
  · exact onePending_of_same s _ h (handle_local s e hl).1 (handle_local s e hl).2.1
  · obtain ⟨n, hn⟩ := h
    cases e with
    | socketOpen i =>
      simp only [enabled, beq_iff_eq] at hen
      rcases hn with ⟨r, hr, hs, ht⟩ | ⟨hs, _⟩
      · rw [hs] at hen
        rcases get?_last _ _ _ _ hen with e | ⟨_, e⟩
        · exact absurd e (by decide)
        · subst e
          refine ⟨i, Or.inl ⟨ReadyState.OPEN, by decide, ?_, ht⟩⟩
          show s.sockets.set i ReadyState.OPEN = _
          rw [hs, set_last]
      · rw [hs] at hen
        exact absurd (get?_replicate_closed _ _ _ hen) (by decide)
    | socketClosing i =>
      simp only [enabled, beq_iff_eq] at hen
      rcases hn with ⟨r, hr, hs, ht⟩ | ⟨hs, _⟩
      · rw [hs] at hen
        rcases get?_last _ _ _ _ hen with e | ⟨_, e⟩
        · exact absurd e (by decide)
        · subst e
          refine ⟨i, Or.inl ⟨ReadyState.CLOSING, by decide, ?_, ht⟩⟩
          show s.sockets.set i ReadyState.CLOSING = _
          rw [hs, set_last]
      · rw [hs] at hen
        exact absurd (get?_replicate_closed _ _ _ hen) (by decide)
    | socketClose i =>
      simp only [enabled, Bool.or_eq_true, beq_iff_eq] at hen
      rcases hn with ⟨r, hr, hs, ht⟩ | ⟨hs, _⟩
      · have hi : i = n := by
          rw [hs] at hen
          rcases hen with (hen | hen) | hen
          · rcases get?_last _ _ _ _ hen with e | ⟨_, e⟩
            · exact absurd e (by decide)
            · exact e
          · rcases get?_last _ _ _ _ hen with e | ⟨_, e⟩
            · exact absurd e (by decide)
            · exact e
          · rcases get?_last _ _ _ _ hen with e | ⟨_, e⟩
            · exact absurd e (by decide)
            · exact e
        subst hi
        refine ⟨i + 1, Or.inr ⟨?_, ?_⟩⟩
        · show s.sockets.set i ReadyState.CLOSED = _
          rw [hs, set_last, List.replicate_succ']
        · show s.timers + 1 ≤ 1
          omega
      · exfalso
        rw [hs] at hen
        rcases hen with (hen | hen) | hen <;>
          exact absurd (get?_replicate_closed _ _ _ hen) (by decide)
    | timeout =>
      simp only [enabled, decide_eq_true_eq] at hen
      rcases hn with ⟨r, hr, hs, ht⟩ | ⟨hs, ht⟩
      · omega
      · show OnePending (connectWebSocket _)
        unfold connectWebSocket
        split_ifs
        · exact ⟨n, Or.inr ⟨hs, by show s.timers - 1 ≤ 1; omega⟩⟩
        · exact ⟨n, Or.inl ⟨ReadyState.CONNECTING, by decide, by simp [hs],
            by show s.timers - 1 = 0; omega⟩⟩
    | socketError i => simp [Event.isLocal] at hl
    | socketMessage i data => simp [Event.isLocal] at hl
    | playClick env => simp [Event.isLocal] at hl
    | stopClick => simp [Event.isLocal] at hl
    | resize w h2 => simp [Event.isLocal] at hl
    | animationFrame => simp [Event.isLocal] at hl
    | contextState st => simp [Event.isLocal] at hl

theorem onePending_run (es : List Event) :
    ∀ s t : State, OnePending s → run s es = some t → OnePending t := by
  induction es with
  | nil =>
    intro s t h hr
    simp only [run, Option.some.injEq] at hr
    exact hr ▸ h
  | cons e es ih =>
    intro s t h hr
    simp only [run] at hr
    split_ifs at hr with hen
    exact ih _ t (onePending_handle s e h hen) hr

theorem Reachable.onePending {s : State} (h : Reachable s) : OnePending s := by
  obtain ⟨w, ht, es, hr⟩ := h
  exact onePending_run es _ s ⟨0, Or.inl ⟨ReadyState.CONNECTING, by decide, rfl, rfl⟩⟩ hr

/-- In a quiet state only local events can be delivered. -/
theorem quiet_enabled (s : State) (e : Event) (h : Quiet s) (hen : enabled s e = true) :
    e.isLocal = true := by
  obtain ⟨hall, ht⟩ := h
  have hget : ∀ i r, s.sockets.get? i = some r → r = ReadyState.CLOSED := by
    intro i r hi
    rw [List.get?_eq_getElem?] at hi
    exact hall r (List.getElem?_mem hi)
  cases e with
  | socketOpen i =>
    simp only [enabled, beq_iff_eq] at hen
    exact absurd (hget _ _ hen) (by decide)
  | socketClosing i =>
    simp only [enabled, beq_iff_eq] at hen
    exact absurd (hget _ _ hen) (by decide)
  | socketClose i =>
    simp only [enabled, Bool.or_eq_true, beq_iff_eq] at hen
    rcases hen with (hen | hen) | hen <;> exact absurd (hget _ _ hen) (by decide)
  | timeout =>
    simp only [enabled, decide_eq_true_eq] at hen
    omega
  | socketError i => rfl
  | socketMessage i data => rfl
  | playClick env => rfl
  | stopClick => rfl
  | resize w h2 => rfl
  | animationFrame => rfl
  | contextState st => rfl

/-- Once the page gave up in a run from page load, every later event is local,
so the list of sockets never changes again. -/
theorem gave_up_is_final (s : State) (es : List Event) (t : State) (hr : Reachable s)
    (hen : enabled s Event.timeout = true) (h5 : 5 ≤ s.reconnectAttempts)
    (hrun : run (handle s Event.timeout) es = some t) :
    t.sockets = s.sockets ∧ t.timers = 0 ∧ ∀ e ∈ es, e.isLocal = true := by
  have hq : Quiet (handle s Event.timeout) := by
    obtain ⟨n, hn⟩ := hr.onePending
    simp only [enabled, decide_eq_true_eq] at hen
    have e : handle s Event.timeout
        = { s with timers := s.timers - 1
                   statusText :=
                     "Connection failed after multiple attempts. Please reload the page."
                   statusClass := "status disconnected" } := by
      show connectWebSocket _ = _
      unfold connectWebSocket
      rw [if_pos (by simpa [maxReconnectAttempts] using h5)]
    rw [e]
    rcases hn with ⟨r, _, _, ht⟩ | ⟨hs, ht⟩
    · omega
    · refine ⟨?_, by show s.timers - 1 = 0; omega⟩
      intro r hr2
      have hr3 : r ∈ s.sockets := hr2
      rw [hs] at hr3
      exact (List.mem_replicate.1 hr3).2
  have hs0 : (handle s Event.timeout).sockets = s.sockets := by
    show (connectWebSocket _).sockets = _
    unfold connectWebSocket
    rw [if_pos (by simpa [maxReconnectAttempts] using h5)]
  rw [← hs0]
  clear hs0 hen h5 hr
  generalize handle s Event.timeout = u at hq hrun
  induction es generalizing u with
  | nil =>
    simp only [run, Option.some.injEq] at hrun
    subst hrun
    exact ⟨rfl, hq.2, by simp⟩
  | cons e es ih =>
    simp only [run] at hrun
    split_ifs at hrun with hen
    have hl := quiet_enabled u e hq hen
    have hf := handle_local u e hl
    have hq2 : Quiet (handle u e) := by
      unfold Quiet
      rw [hf.1, hf.2.1]
      exact hq
    obtain ⟨h1, h2, h3⟩ := ih (handle u e) hq2 hrun
    refine ⟨h1.trans hf.1, h2, ?_⟩
    intro e2 he2
    rcases List.mem_cons.1 he2 with rfl | he2
    · exact hl
    · exact h3 e2 he2

/-! ## Visualization buffer -/

theorem sampleCount_zero (s : Nat) (hs : 1 ≤ s) : sampleCount 0 s = 0 := by
  unfold sampleCount
  apply Nat.div_eq_of_lt
  omega

theorem sampleCount_step (m s : Nat) (hs : 1 ≤ s) (hm : 1 ≤ m) :
    sampleCount m s = sampleCount (m - s) s + 1 := by
  unfold sampleCount
  by_cases h : s ≤ m
  · have e : m + s - 1 = (m - s + s - 1) + s := by omega
    rw [e, Nat.add_div_right _ (by omega)]
  · have e1 : m - s = 0 := by omega
    rw [e1]
    have e2 : (0 + s - 1) / s = 0 := Nat.div_eq_of_lt (by omega)
    have e3 : m + s - 1 = (m - 1) + s := by omega
    have e4 : (m - 1) / s = 0 := Nat.div_eq_of_lt (by omega)
    rw [e2, e3, Nat.add_div_right _ (by omega), e4]

/-- The index `j * s` is inside the frame exactly for `j` below the count. -/
theorem lt_sampleCount_iff (n s j : Nat) (hs : 1 ≤ s) : j < sampleCount n s ↔ j * s < n := by
  unfold sampleCount
  have h1 : j < (n + s - 1) / s ↔ (j + 1) * s ≤ n + s - 1 := by
    rw [Nat.lt_iff_add_one_le, Nat.le_div_iff_mul_le (by omega)]
  have h2 : (j + 1) * s = j * s + s := by ring
  rw [h1, h2]
  omega

/-- The loop pushes the samples at the indices `i, i + s, i + 2s, ...`. -/
theorem pushLoop_eq (samples : List Int) (s : Nat) (hs : 1 ≤ s) :
    ∀ (fuel i : Nat) (dataPoints : List Int), samples.length - i ≤ fuel →
      pushLoop samples s fuel i dataPoints
        = dataPoints ++ (List.range (sampleCount (samples.length - i) s)).map
            (fun j => samples.getD (i + j * s) 0) := by
  intro fuel
  induction fuel with
  | zero =>
    intro i dataPoints h
    have e : samples.length - i = 0 := by omega
    rw [e, sampleCount_zero s hs]
    simp [pushLoop]
  | succ fuel ih =>
    intro i dataPoints h
    by_cases hi : i < samples.length
    · have hstep := sampleCount_step (samples.length - i) s hs (by omega)
      have e : samples.length - i - s = samples.length - (i + s) := by omega
      rw [e] at hstep
      simp only [pushLoop, if_pos hi]
      rw [ih (i + s) _ (by omega), hstep, List.range_succ_eq_map, List.map_cons, List.map_map,
        List.append_assoc]
      congr 1
      simp only [Nat.zero_mul, Nat.add_zero, List.singleton_append, List.cons.injEq, true_and]
      apply List.map_congr_left
      intro j _
      simp only [Function.comp, Nat.succ_eq_add_one]
      congr 1
      ring
    · have e : samples.length - i = 0 := by omega
      simp only [pushLoop, if_neg hi]
      rw [e, sampleCount_zero s hs]
      simp

theorem skipRate_pos (n : Nat) : 1 ≤ skipRate n := le_max_left _ _

theorem pushLoop_strided (samples dataPoints : List Int) :
    pushLoop samples (skipRate samples.length) samples.length 0 dataPoints
      = dataPoints ++ strided samples (skipRate samples.length) := by
  rw [pushLoop_eq samples _ (skipRate_pos _) samples.length 0 dataPoints (by omega)]
  unfold strided
  simp

theorem limitDataPoints_eq (dataPoints : List Int) :
    limitDataPoints dataPoints = dataPoints.drop (dataPoints.length - 200) := by
  unfold limitDataPoints maxDataPoints
  split_ifs with h
  · rfl
  · have : dataPoints.length - 200 = 0 := by omega
    rw [this]
    rfl

theorem sampleCount_skipRate_le (n : Nat) : sampleCount n (skipRate n) ≤ 399 := by
  have hs := skipRate_pos n
  have h1 : sampleCount n (skipRate n) < 400 := by
    unfold sampleCount
    rw [Nat.div_lt_iff_lt_mul (by omega)]
    have : skipRate n = max 1 (n / 200) := rfl
    rcases Nat.lt_or_ge (n / 200) 1 with h | h
    · have e : skipRate n = 1 := by rw [this]; omega
      rw [e]
      omega
    · have e : skipRate n = n / 200 := by rw [this]; omega
      rw [e]
      omega
  omega

theorem sampleCount_skipRate_small (n : Nat) (h : n < 400) : sampleCount n (skipRate n) = n := by
  have e : skipRate n = 1 := by
    have : skipRate n = max 1 (n / 200) := rfl
    rw [this]
    omega
  rw [e]
  unfold sampleCount
  simp

/-- C9: downsampling bounds the points taken from one frame. For a frame of
`N ≥ 1` samples and stride `s = max(1, floor(N / 200))`, the loop appends to the
visualization buffer, before truncation, the samples at the indices
`0, s, 2s, ...` below `N`; their number is the ceiling of `N / s`, which is at
most 399 for every `N` and equals `N` whenever `N < 400`. -/
theorem pushLoop_count (s : State) (samples : List Int) (hN : 1 ≤ samples.length) :
    skipRate samples.length = max 1 (samples.length / 200)
      ∧ pushLoop samples (skipRate samples.length) samples.length 0 s.dataPoints
          = s.dataPoints ++ strided samples (skipRate samples.length)
      ∧ (pushLoop samples (skipRate samples.length) samples.length 0 s.dataPoints).length
          = s.dataPoints.length + sampleCount samples.length (skipRate samples.length)
      ∧ (∀ j, j < sampleCount samples.length (skipRate samples.length)
            ↔ j * skipRate samples.length < samples.length)
      ∧ ((sampleCount samples.length (skipRate samples.length) - 1) * skipRate samples.length
            < samples.length
          ∧ samples.length
            ≤ sampleCount samples.length (skipRate samples.length) * skipRate samples.length)
      ∧ sampleCount samples.length (skipRate samples.length) ≤ 399
      ∧ (samples.length < 400 →
          sampleCount samples.length (skipRate samples.length) = samples.length)
      ∧ (handleSamples s samples).dataPoints
          = limitDataPoints (s.dataPoints ++ strided samples (skipRate samples.length)) := by
  have hiff := fun j => lt_sampleCount_iff samples.length (skipRate samples.length) j
    (skipRate_pos _)
  have hpos : 0 < sampleCount samples.length (skipRate samples.length) :=
    (hiff 0).2 (by omega)
  refine ⟨rfl, pushLoop_strided samples s.dataPoints, ?_, hiff, ⟨?_, ?_⟩,
    sampleCount_skipRate_le _, sampleCount_skipRate_small _, ?_⟩
  · rw [pushLoop_strided]
    simp [strided]
  · exact (hiff _).1 (by omega)
  · exact not_lt.1 (fun hc => absurd ((hiff _).2 hc) (lt_irrefl _))
  · rw [handleSamples_dataPoints, pushLoop_strided]

theorem pushLoop_count_witness :
    1 ≤ ([1000, -1000, 0] : List Int).length
      ∧ skipRate 3 = 1
      ∧ pushLoop [1000, -1000, 0] (skipRate 3) 3 0 [] = [1000, -1000, 0]
      ∧ sampleCount 399 (skipRate 399) = 399
      ∧ sampleCount 400 (skipRate 400) = 200 :=
  ⟨by decide, by decide,
    (pushLoop_count State.pageLoad [1000, -1000, 0] (by decide)).2.1.trans (by decide),
    by decide, by decide⟩

/-- The visualization buffer after a decoded frame. -/
theorem handleWebSocketMessage_dataPoints (s : State) (bytes : List Nat) (samples : List Int)
    (hdec : int16Array bytes = some samples) (hlen : s.dataPoints.length ≤ 200) :
    (handleWebSocketMessage s (MessageData.arrayBuffer bytes)).dataPoints
      = (s.dataPoints ++ strided samples (skipRate samples.length)).drop
          ((s.dataPoints ++ strided samples (skipRate samples.length)).length - 200) := by
  rw [handleWebSocketMessage_decoded s bytes samples hdec]
  by_cases hpos : samples.length > 0
  · rw [if_pos hpos, handleSamples_dataPoints, pushLoop_strided, limitDataPoints_eq]
  · rw [if_neg hpos]
    have hnil : samples = [] := List.length_eq_zero.1 (by omega)
    subst hnil
    have hst : strided [] (skipRate ([] : List Int).length) = [] := by decide
    rw [hst, List.append_nil]
    have : s.dataPoints.length - 200 = 0 := by omega
    rw [this]
    rfl

/-- C1: for every inbound binary frame of `N` 16-bit samples and every prior
visualization buffer of at most 200 entries, the visualization buffer after
`handleWebSocketMessage` is the last `min(200, total)` entries of the prior
buffer followed by the samples of the frame at the indices `0, s, 2s, ...` with
`s = max(1, floor(N / 200))`. Order is kept, the most recent sample is last, the
oldest entries are dropped first, and at most 200 entries are held. -/
theorem handleWebSocketMessage_window (s : State) (bytes : List Nat) (samples : List Int)
    (hdec : int16Array bytes = some samples) (hlen : s.dataPoints.length ≤ 200) :
    (handleWebSocketMessage s (MessageData.arrayBuffer bytes)).dataPoints
        = (s.dataPoints ++ strided samples (skipRate samples.length)).drop
            ((s.dataPoints ++ strided samples (skipRate samples.length)).length - 200)
      ∧ (handleWebSocketMessage s (MessageData.arrayBuffer bytes)).dataPoints.length
          = min 200 (s.dataPoints ++ strided samples (skipRate samples.length)).length
      ∧ (handleWebSocketMessage s (MessageData.arrayBuffer bytes)).dataPoints.length ≤ 200
      ∧ skipRate samples.length = max 1 (samples.length / 200) := by
  rw [handleWebSocketMessage_dataPoints s bytes samples hdec hlen, List.length_drop]
  refine ⟨rfl, ?_, ?_, rfl⟩ <;> omega

theorem handleWebSocketMessage_window_witness :
    int16Array threeSampleBytes = some [1000, -1000, 0]
      ∧ State.pageLoad.dataPoints.length ≤ 200
      ∧ skipRate ([1000, -1000, 0] : List Int).length = 1
      ∧ (handleWebSocketMessage State.pageLoad (MessageData.arrayBuffer threeSampleBytes)).dataPoints
          = [1000, -1000, 0] :=
  ⟨by decide, by decide, by decide,
    (handleWebSocketMessage_window State.pageLoad threeSampleBytes [1000, -1000, 0] (by decide)
      (by decide)).1.trans (by decide)⟩

/-! ## A redraw that leaves the canvas -/

/-- With stride 1 the loop takes every sample. -/
theorem strided_one (samples : List Int) : strided samples 1 = samples := by
  unfold strided sampleCount
  apply List.ext_getElem
  · simp
  · intro i h1 h2
    simp only [List.getElem_map, List.getElem_range, Nat.mul_one]
    exact List.getD_eq_getElem _ _ h2

theorem wideCanvas_reachable : Reachable wideCanvas :=
  ⟨802, 202, [Event.socketOpen 0, Event.socketMessage 0 (MessageData.arrayBuffer silentBytes)],
    rfl⟩

theorem wideCanvas_dataPoints : wideCanvas.dataPoints = List.replicate 200 0 := by
  have h := handleWebSocketMessage_dataPoints (handle (init State.pageLoad 802 202)
    (Event.socketOpen 0)) silentBytes (List.replicate 200 0) (int16Array_zeros 200)
    (by decide)
  have e1 : (handle (init State.pageLoad 802 202) (Event.socketOpen 0)).dataPoints = [] := rfl
  have e2 : skipRate (List.replicate 200 (0 : Int)).length = 1 := by
    rw [List.length_replicate]
    decide
  rw [e1, e2, strided_one, List.nil_append, List.length_replicate, Nat.sub_self,
    List.drop_zero] at h
  exact h

theorem wideCanvas_size : wideCanvas.canvasWidth = 802 ∧ wideCanvas.canvasHeight = 202 := by
  have h := handleWebSocketMessage_frame (handle (init State.pageLoad 802 202)
    (Event.socketOpen 0)) (MessageData.arrayBuffer silentBytes)
  have e : wideCanvas = handleWebSocketMessage (handle (init State.pageLoad 802 202)
    (Event.socketOpen 0)) (MessageData.arrayBuffer silentBytes) := rfl
  rw [e, h]
  exact ⟨rfl, rfl⟩

/-- C10, as stated, fails. Load the page in a wide window, where the canvas is
802 pixels wide, let the socket open and deliver one frame of 200 samples of
silence: the visualization buffer then holds 200 signed 16-bit points, and in
the redraw the last vertex (index 199) has abscissa `199 * (802 / 199)`, which
evaluates to `7054466603810817 / 2^43 = 802.0000000000001` in binary64, to the
right of the canvas. So not every plotted point has `x` within `[0, width]`. -/
theorem drawWaveform_abscissa_leaves_canvas :
    Reachable wideCanvas
      ∧ (wideCanvas.dataPoints ≠ [] ∧ wideCanvas.dataPoints.length ≤ 200
        ∧ ∀ p ∈ wideCanvas.dataPoints, -32768 ≤ p ∧ p ≤ 32767)
      ∧ wideCanvas.canvasWidth = 802
      ∧ ∃ pt ∈ (drawWaveform wideCanvas).picture.path,
          pt.1 = 7054466603810817 / 2 ^ 43 ∧ (wideCanvas.canvasWidth : ℚ) < pt.1 := by
  have hd := wideCanvas_dataPoints
  refine ⟨wideCanvas_reachable, ⟨?_, ?_, ?_⟩, wideCanvas_size.1, ?_⟩
  · rw [hd]
    decide
  · rw [hd, List.length_replicate]
  · intro p hp
    rw [hd] at hp
    rw [(List.mem_replicate.1 hp).2]
    decide
  · have hmem : plotPoint 802 202 (waveRange (List.replicate 200 0)) 199 0
        ∈ (drawWaveform wideCanvas).picture.path := by
      rw [drawWaveform_path, hd, wideCanvas_size.1, wideCanvas_size.2]
      unfold plotPoints
      refine List.mem_map.2 ⟨199, ?_, ?_⟩
      · rw [List.length_replicate, List.mem_range]
        norm_num
      · rw [List.getD_eq_getElem?_getD, List.getElem?_replicate]
        rfl
    have hx : (plotPoint 802 202 (waveRange (List.replicate 200 0)) 199 0).1
        = 7054466603810817 / 2 ^ 43 := by
      show fmul ((199 : ℕ) : ℚ) (stepSize 802) = _
      rw [← fmul_199_stepSize_802]
      norm_num
    refine ⟨_, hmem, hx, ?_⟩
    rw [hx, wideCanvas_size.1]
    norm_num

end NoviBell
